import Mathlib

/-!
Verification of the PDF question-extraction pipeline of
TexasCourtReporterPrep against its natural-language specification.

The Lean definitions below are a shallow embedding of the Python source:

* `src/utils/pdf_parser.py` — `QuestionProcessor` (text cleaning,
  category detection, question-text validation, answer-option extraction,
  wrong-answer generation, the per-section body of `process_pdf`, and the
  validation filter of `save_questions`);
* `src/process_pdfs.py` — `QuestionPoolManager` (the database-insert
  step of `process_pdfs`, `maintain_question_pool`, and the module-level
  batch entry point `process_pdfs`);
* `src/utils/perplexity.py` — `FALLBACK_QUESTIONS`,
  `get_fallback_questions`, and the no-API-key path of
  `generate_questions`.

Python strings are modelled as `String` / `List Char`; the embedding is
ASCII-faithful (Python `str.isprintable`, `\s`, `\w`, `\d`, `[A-Z]` are
modelled over the ASCII range, which covers every input manipulated in
the theorems below).  Regular expressions of the source are implemented
as explicit scanning functions with the same greedy/backtracking
semantics, documented at each definition.
-/

set_option linter.unusedVariables false

namespace CourtPrep

/-! ### Python string primitives -/

/-- Python whitespace (`\s` over ASCII): space, tab, newline, carriage
return, vertical tab, form feed. -/
def isPyWs (c : Char) : Bool :=
  c = ' ' || c = '\t' || c = '\n' || c = '\r' || c = '\x0b' || c = '\x0c'

/-- Python `str.isprintable`, restricted to ASCII: the visible range
`0x20`–`0x7e`.  (Full Python additionally admits printable non-ASCII
code points; no input in this development contains any.) -/
def pyIsPrintable (c : Char) : Bool :=
  0x20 ≤ c.toNat && c.toNat ≤ 0x7e

/-- ASCII lower-casing, as Python `str.lower` acts on ASCII letters. -/
def pyLowerChar (c : Char) : Char :=
  if 'A' ≤ c && c ≤ 'Z' then Char.ofNat (c.toNat + 32) else c

/-- Python `str.strip` on a character list: drop leading and trailing
whitespace. -/
def pyStrip (cs : List Char) : List Char :=
  ((cs.dropWhile isPyWs).reverse.dropWhile isPyWs).reverse

/-- Python `str.strip` on a `String`. -/
def pyStripS (s : String) : String :=
  String.mk (pyStrip s.data)

/-- Whether `needle` occurs as a contiguous substring of `hay`
(Python `needle in hay`). -/
def substrB (needle : List Char) : List Char → Bool
  | [] => needle.isEmpty
  | c :: rest => needle.isPrefixOf (c :: rest) || substrB needle rest

/-- Python `str.split()` with no argument: the list of maximal
whitespace-free runs, empty pieces never produced.  The recursion
advances past a whole run (plus its leading whitespace) per step, so it
is driven by a fuel argument that the wrapper sets to the input length
— always sufficient, since every step consumes at least one
character. -/
def pySplitWsGo : Nat → List Char → List (List Char)
  | 0, _ => []
  | fuel + 1, cs =>
    match cs.dropWhile isPyWs with
    | [] => []
    | c :: rest =>
      (c :: rest.takeWhile (fun x => !isPyWs x)) ::
        pySplitWsGo fuel (rest.dropWhile (fun x => !isPyWs x))

/-- Python `str.split()` with no argument. -/
def pySplitWs (cs : List Char) : List (List Char) :=
  pySplitWsGo cs.length cs

/-- Python `str.replace(old, new)` with non-empty pattern `o :: os`:
replace every non-overlapping occurrence, scanning left to right.
Fuel-driven for the same reason as `pySplitWsGo`. -/
def pyReplaceGo (o : Char) (os new : List Char) : Nat → List Char → List Char
  | 0, cs => cs
  | _, [] => []
  | fuel + 1, c :: rest =>
    if (o :: os).isPrefixOf (c :: rest) then
      new ++ pyReplaceGo o os new fuel (rest.drop os.length)
    else
      c :: pyReplaceGo o os new fuel rest

/-- Python `str.replace(old, new)` (empty `old` leaves the string
unchanged; the source only ever replaces non-empty digit strings). -/
def pyReplace (s old new : String) : String :=
  match old.data with
  | [] => s
  | o :: os => String.mk (pyReplaceGo o os new.data s.data.length s.data)

/-- Last character test: `cs` ends with the character `c`
(Python `str.endswith` for a single character). -/
def endsWithChar (cs : List Char) (c : Char) : Bool :=
  match cs.getLast? with
  | some x => x = c
  | none => false

/-- Value of a digit run, as Python `int` on a string of digits. -/
def digitsToNat (ds : List Char) : Nat :=
  ds.foldl (fun n d => n * 10 + (d.toNat - '0'.toNat)) 0

/-- First maximal run of digits (`re.findall(r'\d+', s)[0]`), if any. -/
def firstDigitRun : List Char → Option (List Char)
  | [] => none
  | c :: rest =>
    if c.isDigit then some (c :: rest.takeWhile Char.isDigit)
    else firstDigitRun rest

/-! ### `QuestionProcessor._extract_answer_options` (pdf_parser.py)

The extractor runs `re.finditer(r'([A-D])\.\s*([^\n]+)', text)` and
builds a letter-to-option dict, returning it only when it holds exactly
the four letters A–D.  The single regex is implemented below with
Python backtracking semantics: after the literal letter and dot, `\s*`
greedily consumes whitespace and backtracks just enough for `[^\n]+` to
capture at least one non-newline character. -/

/-- Match the regex tail `\s*([^\n]+)` at the start of `cs`: returns the
captured group and the suffix after the whole match.  Greedy `\s*` with
backtracking — whitespace is consumed as long as the remainder can still
start a non-newline capture. -/
def matchWsCapture : List Char → Option (List Char × List Char)
  | [] => none
  | c :: rest =>
    if isPyWs c then
      match matchWsCapture rest with
      | some r => some r
      | none =>
        if c = '\n' then none
        else
          some ((c :: rest).takeWhile (fun x => x ≠ '\n'),
                (c :: rest).dropWhile (fun x => x ≠ '\n'))
    else
      some ((c :: rest).takeWhile (fun x => x ≠ '\n'),
            (c :: rest).dropWhile (fun x => x ≠ '\n'))

/-- Is `c` one of the option letters `[A-D]`? -/
def isOptionLetter (c : Char) : Bool :=
  c = 'A' || c = 'B' || c = 'C' || c = 'D'

/-- The scan of `re.finditer(r'([A-D])\.\s*([^\n]+)', text)`: every
non-overlapping match, left to right, as (letter, raw capture).  Fuel-
driven: a successful match advances past the whole match (at least two
characters), a failure advances one position, so fuel equal to the
input length always suffices. -/
def scanOptionsGo : Nat → List Char → List (Char × List Char)
  | 0, _ => []
  | _, [] => []
  | _ + 1, [_] => []
  | fuel + 1, c :: c2 :: rest =>
    if isOptionLetter c && c2 = '.' then
      match matchWsCapture rest with
      | some capRem => (c, capRem.1) :: scanOptionsGo fuel capRem.2
      | none => scanOptionsGo fuel (c2 :: rest)
    else
      scanOptionsGo fuel (c2 :: rest)

/-- All matches of the option regex in the text. -/
def scanOptions (cs : List Char) : List (Char × List Char) :=
  scanOptionsGo cs.length cs

/-- Insert into a Python dict modelled as an association list: an
existing key keeps its position and takes the new value, a new key is
appended. -/
def assocSet (m : List (Char × String)) (k : Char) (v : String) :
    List (Char × String) :=
  match m with
  | [] => [(k, v)]
  | (k0, v0) :: rest =>
    if k0 = k then (k0, v) :: rest else (k0, v0) :: assocSet rest k v

/-- `QuestionProcessor._extract_answer_options` (the later of the two
identical definitions in pdf_parser.py, lines 693–711): collect
`options[letter] = answer.strip()` for every regex match and return the
dict only when `len(options) == 4` and all of A–D are present. -/
def extract_answer_options (text : String) : Option (List (Char × String)) :=
  let options := (scanOptions text.data).foldl
    (fun m p => assocSet m p.1 (String.mk (pyStrip p.2))) []
  if options.length = 4 &&
      (['A', 'B', 'C', 'D'].all (fun l => options.any (fun p => p.1 = l))) then
    some options
  else
    none

/-! ### `QuestionProcessor._clean_text` (pdf_parser.py, lines 125–157)

The cleaning pipeline: keep printable characters plus newline and tab,
turn tabs into spaces, re-join every line from its whitespace-split
words (dropping lines that become empty), collapse runs of `?` and of
`.`, insert a space between sentence punctuation and a following
capital, collapse runs of three or more newlines to two, and strip. -/

/-- Split a character list on `'\n'` (Python `str.split('\n')`): always
at least one piece, empty pieces kept. -/
def splitNl : List Char → List (List Char)
  | [] => [[]]
  | c :: rest =>
    if c = '\n' then [] :: splitNl rest
    else
      match splitNl rest with
      | [] => [[c]]
      | l :: ls => (c :: l) :: ls

/-- Join pieces with a separator character
(Python `sep.join(...)` for a one-character separator). -/
def joinChar (sep : Char) : List (List Char) → List Char
  | [] => []
  | [l] => l
  | l :: l2 :: ls => l ++ sep :: joinChar sep (l2 :: ls)

/-- Collapse every run of the character `t` to a single `t`
(`re.sub(r'\?+', '?', ...)` and `re.sub(r'\.+', '.', ...)`).
Fuel-driven; fuel below the input length is never reached and leaves
the rest unchanged. -/
def collapseRunsGo (t : Char) : Nat → List Char → List Char
  | 0, cs => cs
  | _, [] => []
  | fuel + 1, c :: rest =>
    if c = t then c :: collapseRunsGo t fuel (rest.dropWhile (fun x => x = t))
    else c :: collapseRunsGo t fuel rest

/-- Collapse every run of the character `t` to a single `t`. -/
def collapseRuns (t : Char) (cs : List Char) : List Char :=
  collapseRunsGo t cs.length cs

/-- Sentence-ending punctuation of the source regex `([.?!])`. -/
def isSentencePunct (c : Char) : Bool :=
  c = '.' || c = '?' || c = '!'

/-- ASCII capital letter (`[A-Z]`). -/
def isCapital (c : Char) : Bool :=
  'A' ≤ c && c ≤ 'Z'

/-- `re.sub(r'([.?!])([A-Z])', r'\1 \2', ...)`: insert a space between
sentence punctuation and an immediately following capital letter,
scanning left to right without overlap (the capital is consumed by the
match). -/
def spacePunct : List Char → List Char
  | [] => []
  | [c] => [c]
  | c1 :: c2 :: rest =>
    if isSentencePunct c1 && isCapital c2 then
      c1 :: ' ' :: c2 :: spacePunct rest
    else
      c1 :: spacePunct (c2 :: rest)

/-- `re.sub(r'\n{3,}', '\n\n', ...)`: collapse every run of three or
more newlines to exactly two.  Fuel-driven like `collapseRunsGo`. -/
def collapseNl3Go : Nat → List Char → List Char
  | 0, cs => cs
  | _, [] => []
  | fuel + 1, c :: rest =>
    if c = '\n' then
      (if 3 ≤ 1 + (rest.takeWhile (fun x => x = '\n')).length then ['\n', '\n']
       else List.replicate (1 + (rest.takeWhile (fun x => x = '\n')).length) '\n') ++
        collapseNl3Go fuel (rest.dropWhile (fun x => x = '\n'))
    else
      c :: collapseNl3Go fuel rest

/-- Collapse every run of three or more newlines to exactly two. -/
def collapseNl3 (cs : List Char) : List Char :=
  collapseNl3Go cs.length cs

/-- Normalize one line: `' '.join(part for part in line.split() if part)`
— the whitespace-split words re-joined by single spaces. -/
def normalizeLine (l : List Char) : List Char :=
  joinChar ' ' (pySplitWs l)

/-- `QuestionProcessor._clean_text`: the whole cleaning pipeline on a
character list. -/
def cleanTextList (cs : List Char) : List Char :=
  let kept := cs.filter (fun c => pyIsPrintable c || c = '\n' || c = '\t')
  let noTab := kept.map (fun c => if c = '\t' then ' ' else c)
  let lines := (splitNl noTab).map normalizeLine
  let joined := joinChar '\n' (lines.filter (fun l => l ≠ []))
  pyStrip (collapseNl3 (spacePunct (collapseRuns '.' (collapseRuns '?' joined))))

/-- `QuestionProcessor._clean_text` on a `String` (the `if not text`
guard of the source returns the empty string unchanged, which the
pipeline also does). -/
def clean_text (text : String) : String :=
  String.mk (cleanTextList text.data)

/-- Observer: does some adjacent character pair of the list satisfy
`bad`?  Used to state the cleaned-text invariants (no two adjacent
newlines, no `??`, no `..`, no sentence punctuation immediately
followed by a capital). -/
def hasAdjPair (bad : Char → Char → Bool) : List Char → Bool
  | a :: b :: rest => bad a b || hasAdjPair bad (b :: rest)
  | _ => false

/-! ### `QuestionProcessor._detect_category` (pdf_parser.py, lines 159–175) -/

/-- `QuestionProcessor.CATEGORIES`: the fixed taxonomy with its keyword
sets, in the dict insertion order of the source. -/
def CATEGORIES : List (String × List String) :=
  [("Legal & Judicial Terminology", ["legal", "judicial", "court", "law"]),
   ("Professional Standards & Ethics", ["ethics", "standards", "professional", "conduct"]),
   ("Grammar & Vocabulary", ["grammar", "vocabulary", "language", "writing"]),
   ("Transcription Standards", ["transcription", "format", "reporting", "record"])]

/-- The category names, in order. -/
def categoryNames : List String :=
  CATEGORIES.map (fun p => p.1)

/-- Keyword set of a category (`self.CATEGORIES.get(category, [])`). -/
def categoryKeywords (category : String) : List String :=
  match CATEGORIES.find? (fun p => p.1 = category) with
  | some p => p.2
  | none => []

/-- Score of one keyword list against lower-cased text: the number of
keywords occurring as substrings (each keyword counted once —
`if keyword.lower() in text_lower: scores[category] += 1`). -/
def keywordScore (textLower : List Char) (kws : List String) : Nat :=
  kws.foldl (fun n kw => if substrB kw.data textLower then n + 1 else n) 0

/-- Python `max(items, key=lambda x: x[1])` over a non-empty list: the
first element attaining the maximal score is kept. -/
def maxByFirst (p : String × Nat) : List (String × Nat) → String × Nat
  | [] => p
  | q :: rest => if p.2 < q.2 then maxByFirst q rest else maxByFirst p rest

/-- Score of every category against the text, in `CATEGORIES` order. -/
def categoryScores (text : String) : List (String × Nat) :=
  let tl := text.data.map pyLowerChar
  CATEGORIES.map (fun p => (p.1, keywordScore tl p.2))

/-- `QuestionProcessor._detect_category`: the sticky
`self.current_category` context wins outright when set; otherwise the
first category with the maximal keyword score, falling back to the
default when every score is zero. -/
def detect_category (currentCategory : Option String) (text : String) : String :=
  match currentCategory with
  | some c => c
  | none =>
    match categoryScores text with
    | [] => "Legal & Judicial Terminology"
    | s :: rest =>
      if (s :: rest).any (fun p => p.2 ≠ 0) then (maxByFirst s rest).1
      else "Legal & Judicial Terminology"

/-- Observer: the score `_detect_category` computes for one category
name (zero for a name outside the taxonomy, whose keyword set is
empty). -/
def categoryScore (text : String) (name : String) : Nat :=
  keywordScore (text.data.map pyLowerChar) (categoryKeywords name)

/-! ### `QuestionProcessor._validate_question_text` (pdf_parser.py, lines 243–270) -/

/-- Word characters of the regex `\b` boundary (`\w` over ASCII). -/
def isWordChar (c : Char) : Bool :=
  ('a' ≤ c && c ≤ 'z') || ('A' ≤ c && c ≤ 'Z') || ('0' ≤ c && c ≤ '9') || c = '_'

/-- Maximal runs of word characters, fuel-driven like `pySplitWsGo`.
A regex `\b(w1|w2|...)\b` with purely alphabetic alternatives matches
the text exactly when one of its maximal word-character runs equals an
alternative, since `\b` holds only at the edges of such runs. -/
def wordRunsGo : Nat → List Char → List (List Char)
  | 0, _ => []
  | fuel + 1, cs =>
    match cs.dropWhile (fun c => !isWordChar c) with
    | [] => []
    | c :: rest =>
      (c :: rest.takeWhile isWordChar) :: wordRunsGo fuel (rest.dropWhile isWordChar)

/-- Maximal runs of word characters of the text. -/
def wordRuns (cs : List Char) : List (List Char) :=
  wordRunsGo cs.length cs

/-- Does some whole word of `textLower` belong to `ws`? -/
def hasWordFrom (ws : List String) (textLower : List Char) : Bool :=
  (wordRuns textLower).any (fun r => ws.any (fun w => w.data = r))

/-- Alternatives of the question-word regex of
`_validate_question_text`. -/
def questionWordList : List String :=
  ["what", "who", "where", "when", "why", "how", "which", "whose", "whom",
   "explain", "describe", "discuss", "define", "compare", "contrast",
   "analyze", "evaluate", "list", "identify"]

/-- Alternatives of the finite-verb regex of `_validate_question_text`. -/
def verbWordList : List String :=
  ["is", "are", "was", "were", "do", "does", "did", "will", "can", "could",
   "should", "would", "have", "has", "had", "explain", "describe", "define"]

/-- `QuestionProcessor._validate_question_text`: non-empty, the stripped
text ends in a question mark, has 5–100 whitespace-separated words,
contains a question word and a finite-verb marker (both matched with
word boundaries, case-insensitively). -/
def validate_question_text (text : String) : Bool :=
  if text.data.isEmpty then false
  else
    let t := pyStrip text.data
    if !endsWithChar t '?' then false
    else
      let n := (pySplitWs t).length
      if n < 5 || 100 < n then false
      else
        let tl := t.map pyLowerChar
        hasWordFrom questionWordList tl && hasWordFrom verbWordList tl

/-! ### `QuestionProcessor._generate_context_aware_wrong_answers`
(pdf_parser.py; the later of the two identical definitions, lines
713–747.  The `except` branch of the source is unreachable: no statement
of the `try` body can raise, so it is not modelled.) -/

/-- Decimal rendering of a Python `int` (`str(num)`). -/
def pyIntStr (i : Int) : String :=
  toString i

/-- `QuestionProcessor._generate_context_aware_wrong_answers`: three
template answers when the correct answer reads like a definition, three
numeric perturbations when it contains a number, three generic
templates otherwise. -/
def generate_context_aware_wrong_answers (correct category : String) : List String :=
  let keywords := categoryKeywords category
  let correctLower := correct.data.map pyLowerChar
  if ["is", "are", "means"].any (fun w => substrB w.data correctLower) then
    ["This refers to a different legal concept in " ++ category,
     "While related to " ++ (keywords.headD "the topic") ++ ", this is incorrect",
     "This is a common misconception in " ++ category]
  else if correct.data.any Char.isDigit then
    match firstDigitRun correct.data with
    | some ds =>
      let num : Nat := digitsToNat ds
      [pyReplace correct (pyIntStr num) (pyIntStr (num + 5)),
       pyReplace correct (pyIntStr num) (pyIntStr ((num : Int) - 5)),
       pyReplace correct (pyIntStr num) (pyIntStr (num * 2))]
    | none =>
      ["Incorrect approach in " ++ category,
       "This violates standard practices in " ++ category,
       "This is not recommended in " ++ category]
  else
    ["Incorrect approach in " ++ category,
     "This violates standard practices in " ++ category,
     "This is not recommended in " ++ category]

/-! ### The extracted `Question` (pdf_parser.py dataclass, lines 23–44)
and the per-section body of `QuestionProcessor.process_pdf` (the later
of the two identical definitions, lines 749–809). -/

/-- The `Question` dataclass of pdf_parser.py (without the derived
`content_hash` field, modelled separately by `contentString`). -/
structure Question where
  question_text : String
  correct_answer : String
  wrong_answers : List String
  category : String
  source_file : String
  deriving Repr, DecidableEq

/-- The string hashed into `content_hash` by `Question.__post_init__`
(`f"{question_text}|{correct_answer}|{'|'.join(wrong_answers)}"`).
SHA-256 itself is modelled by its preimage: two questions have equal
`content_hash` exactly when their content strings are equal (hash
collisions are ignored). -/
def contentString (q : Question) : String :=
  q.question_text ++ "|" ++ q.correct_answer ++ "|" ++
    String.intercalate "|" q.wrong_answers

/-- The body of the per-section loop of `QuestionProcessor.process_pdf`
for one `(question_text, answer_text)` pair.  When
`_extract_answer_options` finds a complete option set, the source
executes `answer_text = options.get(correct_answer_letter, answer_text)`
— but `correct_answer_letter` is not defined anywhere in the module, so
this statement raises `NameError`, which the enclosing
`except Exception` converts into a `QUESTION_CREATION_ERROR` entry and
the pair is skipped.  Otherwise a `Question` is built from the raw
answer text. -/
def process_pdf_section (currentCategory : Option String)
    (question_text answer_text source_file : String) : Except String Question :=
  match extract_answer_options answer_text with
  | some _ =>
    Except.error
      "QUESTION_CREATION_ERROR: Error creating question: name correct_answer_letter is not defined"
  | none =>
    let category := detect_category currentCategory question_text
    let wrong := generate_context_aware_wrong_answers answer_text category
    Except.ok
      { question_text := question_text
        correct_answer := answer_text
        wrong_answers := wrong
        category := category
        source_file := source_file }

/-! ### The validation filter of `QuestionProcessor.save_questions`
(pdf_parser.py, lines 638–691) -/

/-- The per-question acceptance test of `save_questions`: stripped
question text, correct answer and source file are non-empty, the wrong
answers are exactly three non-blank strings, and the category is a key
of `CATEGORIES`.  (The `isinstance` checks of the source hold by
construction in the typed model.) -/
def save_valid_question (q : Question) : Bool :=
  !(pyStrip q.question_text.data).isEmpty &&
  !(pyStrip q.correct_answer.data).isEmpty &&
  q.wrong_answers.length = 3 &&
  q.wrong_answers.all (fun a => !(pyStrip a.data).isEmpty) &&
  categoryNames.contains q.category &&
  !(pyStrip q.source_file.data).isEmpty

/-- The filtering step of `save_questions`: only valid questions are
written to the output JSON. -/
def save_questions_filter (qs : List Question) : List Question :=
  qs.filter save_valid_question

/-- Case-insensitive pairwise distinctness of the four answers of a
question (the property asserted by the specification for persisted
questions; the source never checks it). -/
def answersDistinctCI (q : Question) : Bool :=
  let lowered := (q.correct_answer :: q.wrong_answers).map
    (fun a => String.mk (a.data.map pyLowerChar))
  go lowered
where
  go : List String → Bool
    | [] => true
    | a :: rest => !(rest.contains a) && go rest

/-! ### The database-insert step of `QuestionPoolManager.process_pdfs`
(process_pdfs.py, lines 222–258) and the persisted `Question` row of
models.py (lines 140–152).

The persisted row carries `category_id`, `question_text`,
`correct_answer` and `wrong_answers`; it has no `content_hash` column.
The category lookup `Category.query.filter_by(name=...).first()` is
modelled by a name-to-id map `catId`. -/

/-- A persisted row of the `questions` table (the columns the insert
step writes). -/
structure DBQuestion where
  category_id : Nat
  question_text : String
  correct_answer : String
  wrong_answers : List String
  deriving Repr, DecidableEq

/-- The duplicate check
`Question.query.filter_by(question_text=..., category_id=...).first()`:
is a row with this text and category id present? -/
def dbHasQuestion (db : List DBQuestion) (t : String) (cid : Nat) : Bool :=
  db.any (fun e => e.question_text = t && e.category_id = cid)

/-- One iteration of the insert loop of
`QuestionPoolManager.process_pdfs`: skip when the category name is
unknown, skip when a row with the same `(question_text, category_id)`
exists, append otherwise. -/
def insert_question (catId : String → Option Nat) (db : List DBQuestion)
    (q : Question) : List DBQuestion :=
  match catId q.category with
  | none => db
  | some cid =>
    if dbHasQuestion db q.question_text cid then db
    else db ++ [⟨cid, q.question_text, q.correct_answer, q.wrong_answers⟩]

/-- The whole insert loop over the questions extracted from one
document. -/
def insert_questions (catId : String → Option Nat) (db : List DBQuestion)
    (qs : List Question) : List DBQuestion :=
  qs.foldl (insert_question catId) db

/-! ### `QuestionPoolManager.maintain_question_pool`
(process_pdfs.py, lines 113–183), one category at a time. -/

/-- A question dict returned by the external generator
(`generate_questions`). -/
structure GenQuestion where
  question_text : String
  correct_answer : String
  wrong_answers : List String
  deriving Repr, DecidableEq

/-- Outcome of one `generate_questions` call: an exception, or a list
of question dicts (the requested count only enters the prompt — the
response length is unconstrained). -/
inductive GenOutcome where
  | raise : GenOutcome
  | ret : List GenQuestion → GenOutcome

/-- The inner add loop of one backfill attempt: each dict not already
persisted under this category id (checking the session state, which
autoflush makes include the rows just added in this batch) is appended;
returns the new state and `added_count`. -/
def addBatch (db : List DBQuestion) (cid : Nat) (qs : List GenQuestion) :
    List DBQuestion × Nat :=
  qs.foldl
    (fun acc q =>
      if dbHasQuestion acc.1 q.question_text cid then acc
      else (acc.1 ++ [⟨cid, q.question_text, q.correct_answer, q.wrong_answers⟩], acc.2 + 1))
    (db, 0)

/-- Number of persisted questions of a category
(`Question.query.join(Category).filter(Category.name == category).count()`). -/
def countCat (db : List DBQuestion) (cid : Nat) : Nat :=
  (db.filter (fun e => e.category_id = cid)).length

/-- The retry loop `for attempt in range(retries)` of
`maintain_question_pool` for one category: `attempts` is the list of
remaining attempt indices, `needed` the current `needed_count`.
Returns the final state, the list of counts passed to
`generate_questions` (one entry per call, each
`batch_size = min(20, needed_count)`), and the collected error
strings.  A request that raises records an error only on the last
attempt; an empty response retries silently; a missing category row
records an error and breaks; reaching `needed_count <= 0` breaks. -/
def maintain_go (catId : String → Option Nat) (category : String)
    (gen : Nat → GenOutcome) :
    List Nat → Int → List DBQuestion → List DBQuestion × List Int × List String
  | [], _, db => (db, [], [])
  | a :: rest, needed, db =>
    let batch : Int := min 20 needed
    match gen a with
    | GenOutcome.raise =>
      let r := maintain_go catId category gen rest needed db
      (r.1, batch :: r.2.1,
        (if rest.isEmpty then
          ["Failed to generate questions for " ++ category ++ " after 3 attempts"]
         else []) ++ r.2.2)
    | GenOutcome.ret qs =>
      if qs.isEmpty then
        let r := maintain_go catId category gen rest needed db
        (r.1, batch :: r.2.1, r.2.2)
      else
        match catId category with
        | none => (db, [batch], ["Category not found: " ++ category])
        | some cid =>
          let p := addBatch db cid qs
          let needed2 : Int := needed - p.2
          if needed2 ≤ 0 then (p.1, [batch], [])
          else
            let r := maintain_go catId category gen rest needed2 p.1
            (r.1, batch :: r.2.1, r.2.2)

/-- `maintain_question_pool` restricted to one category: when the
persisted count is below `min_threshold`, run up to `retries = 3`
generation attempts. -/
def maintain_category (catId : String → Option Nat) (min_threshold : Nat)
    (category : String) (gen : Nat → GenOutcome) (db : List DBQuestion) :
    List DBQuestion × List Int × List String :=
  let current :=
    match catId category with
    | some cid => countCat db cid
    | none => 0
  if current < min_threshold then
    maintain_go catId category gen [0, 1, 2] ((min_threshold : Int) - current) db
  else (db, [], [])

/-! ### The batch entry point `process_pdfs` (process_pdfs.py, lines
298–308).

The module-level function builds the Flask app and enters its context
OUTSIDE any handler, then runs everything else — `QuestionPoolManager()`
construction (whose `QuestionProcessor.__init__` calls
`_setup_directories`, which re-raises directory-creation failures),
`ensure_categories`, and the `process_pdfs` method — inside a single
`try` whose `except Exception` returns `(0, [str(e)])`.  The method
itself catches its internal faults and returns `(0, [message])` on a
critical error. -/

/-- Abstract fault state of one batch run: which setup stages succeed,
and the pair the pipeline would return when nothing fails. -/
structure BatchEnv where
  appCreateOk : Bool
  dirSetupOk : Bool
  ensureCategoriesOk : Bool
  runOk : Bool
  runValue : Nat × List String
  deriving Repr

/-- The guarded body of the entry point: `QuestionPoolManager()` (which
raises when `_setup_directories` cannot create the directories), then
`ensure_categories` (which re-raises database failures), then the
`process_pdfs` method (which catches internally and returns
`(0, [message])` on a critical error). -/
def pipelineRun (env : BatchEnv) : Except String (Nat × List String) :=
  if !env.dirSetupOk then Except.error "Error setting up directories"
  else if !env.ensureCategoriesOk then Except.error "Error ensuring categories"
  else Except.ok
    (if env.runOk then env.runValue
     else (0, ["Critical error during PDF processing"]))

/-- The module-level `process_pdfs` entry point: app creation and
context entry can fault unguarded; everything else is wrapped in
`try ... except Exception as e: return 0, [str(e)]`. -/
def process_pdfs_entry (env : BatchEnv) : Except String (Nat × List String) :=
  if !env.appCreateOk then Except.error "app creation failed"
  else
    match pipelineRun env with
    | Except.ok r => Except.ok r
    | Except.error e => Except.ok (0, [e])

/-! ### The call sequence of `QuestionProcessor.process_pdf`
(pdf_parser.py, lines 749–809) as a step trace. -/

/-- The named processing steps a single call of `process_pdf` can
perform. -/
inductive PdfStep where
  | validateFile : PdfStep
  | extractText : PdfStep
  | extractSections : PdfStep
  | backupFile : PdfStep
  deriving Repr, DecidableEq

/-- The statement sequence of `process_pdf` as a trace: `validate_file`
first (returning early on failure), then `extract_text` (returning
early on failure), then `_extract_question_sections` and the section
loop.  `backup_file` (pdf_parser.py, lines 623–636) is defined on the
class but never invoked — by `process_pdf` or by anything else — so no
trace contains it. -/
def process_pdf_steps (validateOk textOk : Bool) : List PdfStep :=
  if !validateOk then [PdfStep.validateFile]
  else if !textOk then [PdfStep.validateFile, PdfStep.extractText]
  else [PdfStep.validateFile, PdfStep.extractText, PdfStep.extractSections]

/-! ### `FALLBACK_QUESTIONS`, `get_fallback_questions` and the
unavailable-generator path of `generate_questions`
(perplexity.py, lines 13–50, 73–84, 286–292). -/

/-- `COURT_REPORTER_TOPICS`: the eight taxonomy topics. -/
def COURT_REPORTER_TOPICS : List String :=
  ["Legal & Judicial Terminology",
   "Professional Standards & Ethics",
   "Grammar & Vocabulary",
   "Transcription Standards",
   "Court Procedures",
   "Deposition Protocol",
   "Reporting Equipment",
   "Certification Requirements"]

/-- The static `FALLBACK_QUESTIONS` dict: one entry each for the two
topics it covers. -/
def FALLBACK_QUESTIONS : List (String × List GenQuestion) :=
  [("Legal & Judicial Terminology",
    [{ question_text := "What is the meaning of voir dire in legal proceedings?"
       correct_answer := "It is a preliminary examination of a witness or juror to determine their qualifications."
       wrong_answers :=
         ["It is a final argument presented to the jury.",
          "It is a type of legal document filed with the court.",
          "It is a meeting between attorneys and the judge."] }]),
   ("Professional Standards & Ethics",
    [{ question_text := "What is the primary duty of a court reporter regarding confidentiality?"
       correct_answer := "To maintain strict confidentiality of all information obtained during proceedings."
       wrong_answers :=
         ["To share information only with other court reporters.",
          "To discuss cases only after they are closed.",
          "To maintain records for personal reference."] }])]

/-- The static fallback list of a topic (empty for a topic outside the
dict). -/
def fallbackList (topic : String) : List GenQuestion :=
  match FALLBACK_QUESTIONS.find? (fun p => p.1 = topic) with
  | some p => p.2
  | none => []

/-- `get_fallback_questions(topic, count)`: the fallback list truncated
to `count` entries (`questions[:count]`), the empty list for an
uncovered topic. -/
def get_fallback_questions (topic : String) (count : Nat) : List GenQuestion :=
  (fallbackList topic).take count

/-- `generate_questions(topic, count)` when the generator is
unavailable: both the missing-API-key path (perplexity.py line 81) and
the non-retryable `PerplexityAPIError` path (line 178) return
`get_fallback_questions(topic, count)` without raising. -/
def generate_questions_unavailable (topic : String) (count : Nat) : List GenQuestion :=
  get_fallback_questions topic count

/-! ## Supporting lemmas -/

theorem scanOptionsGo_eq_nil_of_no_letter (fuel : Nat) (cs : List Char)
    (h : cs.all (fun c => !isOptionLetter c) = true) : scanOptionsGo fuel cs = [] := by
  induction fuel generalizing cs with
  | zero =>
    match cs with
    | [] => rfl
    | [c] => rfl
    | c :: c2 :: rest => rfl
  | succ fuel ih =>
    match cs with
    | [] => rfl
    | [c] => rfl
    | c :: c2 :: rest =>
      simp only [List.all_cons, Bool.and_eq_true, Bool.not_eq_eq_eq_not, Bool.not_true] at h
      simp only [scanOptionsGo, h.1, Bool.false_and, Bool.false_eq_true, if_false]
      exact ih (c2 :: rest) (by simp [h.2.1, h.2.2])

theorem extract_answer_options_none_of_no_letter (s : String)
    (h : s.data.all (fun c => !isOptionLetter c) = true) :
    extract_answer_options s = none := by
  unfold extract_answer_options scanOptions
  rw [scanOptionsGo_eq_nil_of_no_letter s.data.length s.data h]
  rfl

theorem maintain_go_ret_nil (catId : String → Option Nat) (category : String) :
    ∀ (attempts : List Nat) (needed : Int) (db : List DBQuestion),
      maintain_go catId category (fun _ => GenOutcome.ret []) attempts needed db =
        (db, attempts.map (fun _ => min 20 needed), []) := by
  intro attempts
  induction attempts with
  | nil => intro needed db; rfl
  | cons a rest ih =>
    intro needed db
    simp only [maintain_go, List.isEmpty_nil, if_true, ih, List.map_cons]

theorem generate_wrong_answers_length (correct category : String) :
    (generate_context_aware_wrong_answers correct category).length = 3 := by
  simp only [generate_context_aware_wrong_answers]
  repeat' split
  all_goals rfl

theorem gen_unavailable_empty_of_fallback_nil (topic : String) (count : Nat)
    (h : fallbackList topic = []) : generate_questions_unavailable topic count = [] := by
  unfold generate_questions_unavailable get_fallback_questions
  rw [h, List.take_nil]

theorem insert_questions_cons (catId : String → Option Nat) (db : List DBQuestion)
    (q : Question) (qs : List Question) :
    insert_questions catId db (q :: qs) =
      insert_questions catId (insert_question catId db q) qs := rfl

theorem dbHasQuestion_insert_mono (catId : String → Option Nat) (db : List DBQuestion)
    (q : Question) (t : String) (cid : Nat) (h : dbHasQuestion db t cid = true) :
    dbHasQuestion (insert_question catId db q) t cid = true := by
  unfold insert_question
  split
  · exact h
  · split
    · exact h
    · unfold dbHasQuestion at h ⊢
      rw [List.any_append]
      simp [h]

theorem dbHasQuestion_inserts_mono (catId : String → Option Nat) (qs : List Question) :
    ∀ (db : List DBQuestion) (t : String) (cid : Nat),
      dbHasQuestion db t cid = true →
      dbHasQuestion (insert_questions catId db qs) t cid = true := by
  induction qs with
  | nil => intro db t cid h; exact h
  | cons q rest ih =>
    intro db t cid h
    rw [insert_questions_cons]
    exact ih _ t cid (dbHasQuestion_insert_mono catId db q t cid h)

theorem insert_question_covers (catId : String → Option Nat) (db : List DBQuestion)
    (q : Question) (cid : Nat) (hc : catId q.category = some cid) :
    dbHasQuestion (insert_question catId db q) q.question_text cid = true := by
  unfold insert_question
  simp only [hc]
  by_cases hh : dbHasQuestion db q.question_text cid = true
  · rw [if_pos hh]; exact hh
  · rw [if_neg hh]
    unfold dbHasQuestion
    rw [List.any_append]
    simp

theorem inserts_cover (catId : String → Option Nat) (qs : List Question) :
    ∀ (db : List DBQuestion) (q : Question), q ∈ qs →
      ∀ cid, catId q.category = some cid →
      dbHasQuestion (insert_questions catId db qs) q.question_text cid = true := by
  induction qs with
  | nil => intro db q hq; exact absurd hq (List.not_mem_nil q)
  | cons q0 rest ih =>
    intro db q hq cid hc
    rw [insert_questions_cons]
    cases List.mem_cons.mp hq with
    | inl he =>
      subst he
      exact dbHasQuestion_inserts_mono catId rest _ _ _
        (insert_question_covers catId db q cid hc)
    | inr hm => exact ih (insert_question catId db q0) q hm cid hc

theorem insert_question_of_covered (catId : String → Option Nat) (db : List DBQuestion)
    (q : Question)
    (h : ∀ cid, catId q.category = some cid →
      dbHasQuestion db q.question_text cid = true) :
    insert_question catId db q = db := by
  unfold insert_question
  split
  · rfl
  · rename_i cid hc
    rw [if_pos (h cid hc)]

theorem inserts_of_all_covered (catId : String → Option Nat) (qs : List Question) :
    ∀ db : List DBQuestion,
      (∀ q ∈ qs, ∀ cid, catId q.category = some cid →
        dbHasQuestion db q.question_text cid = true) →
      insert_questions catId db qs = db := by
  induction qs with
  | nil => intro db h; rfl
  | cons q0 rest ih =>
    intro db h
    rw [insert_questions_cons,
        insert_question_of_covered catId db q0 (h q0 (List.mem_cons_self q0 rest))]
    exact ih db (fun q hq => h q (List.mem_cons_of_mem q0 hq))

theorem maintain_go_len (catId : String → Option Nat) (category : String)
    (gen : Nat → GenOutcome) :
    ∀ (attempts : List Nat) (needed : Int) (db : List DBQuestion),
      (maintain_go catId category gen attempts needed db).2.1.length ≤ attempts.length := by
  intro attempts
  induction attempts with
  | nil => intro needed db; simp [maintain_go]
  | cons a rest ih =>
    intro needed db
    cases hg : gen a with
    | raise =>
      simp only [maintain_go, hg, List.length_cons]
      exact Nat.succ_le_succ (ih needed db)
    | ret qs =>
      by_cases he : qs.isEmpty
      · simp only [maintain_go, hg, he, if_true, List.length_cons]
        exact Nat.succ_le_succ (ih needed db)
      · simp only [maintain_go, hg, he, Bool.false_eq_true, if_false]
        cases hc : catId category with
        | none => simp [hc]
        | some cid =>
          simp only [hc]
          split
          · simp
          · simp only [List.length_cons]
            exact Nat.succ_le_succ (ih _ _)

theorem maintain_go_req_bounds (catId : String → Option Nat) (category : String)
    (gen : Nat → GenOutcome) :
    ∀ (attempts : List Nat) (needed : Int) (db : List DBQuestion),
      (1 : Int) ≤ needed →
      ∀ r ∈ (maintain_go catId category gen attempts needed db).2.1,
        1 ≤ r ∧ r ≤ min 20 needed := by
  intro attempts
  induction attempts with
  | nil => intro needed db hn r hr; simp [maintain_go] at hr
  | cons a rest ih =>
    intro needed db hn r hr
    have hbatch : (1 : Int) ≤ min 20 needed ∧ min 20 needed ≤ min 20 needed :=
      ⟨le_min (by omega) hn, le_refl _⟩
    cases hg : gen a with
    | raise =>
      simp only [maintain_go, hg] at hr
      rcases List.mem_cons.mp hr with rfl | hm
      · exact hbatch
      · exact ih needed db hn r hm
    | ret qs =>
      by_cases he : qs.isEmpty
      · simp only [maintain_go, hg, he, if_true] at hr
        rcases List.mem_cons.mp hr with rfl | hm
        · exact hbatch
        · exact ih needed db hn r hm
      · simp only [maintain_go, hg, he, Bool.false_eq_true, if_false] at hr
        cases hc : catId category with
        | none =>
          simp only [hc, List.mem_singleton] at hr
          subst hr
          exact hbatch
        | some cid =>
          simp only [hc] at hr
          by_cases hmet : needed - ((addBatch db cid qs).2 : Int) ≤ 0
          · rw [if_pos hmet] at hr
            simp only [List.mem_singleton] at hr
            subst hr
            exact hbatch
          · rw [if_neg hmet] at hr
            rcases List.mem_cons.mp hr with rfl | hm
            · exact hbatch
            · have h2 : (1 : Int) ≤ needed - ((addBatch db cid qs).2 : Int) := by omega
              have := ih _ _ h2 r hm
              refine ⟨this.1, le_trans this.2 ?_⟩
              have hadd : (0 : Int) ≤ ((addBatch db cid qs).2 : Int) := Int.ofNat_nonneg _
              exact min_le_min (le_refl 20) (by omega)

theorem maintain_go_first (catId : String → Option Nat) (category : String)
    (gen : Nat → GenOutcome) (a : Nat) (rest : List Nat) (needed : Int)
    (db : List DBQuestion) :
    (maintain_go catId category gen (a :: rest) needed db).2.1.head? =
      some (min 20 needed) := by
  cases hg : gen a with
  | raise => simp [maintain_go, hg]
  | ret qs =>
    by_cases he : qs.isEmpty
    · simp [maintain_go, hg, he]
    · simp only [maintain_go, hg, he, Bool.false_eq_true, if_false]
      cases hc : catId category with
      | none => simp [hc]
      | some cid =>
        simp only [hc]
        split
        · simp
        · simp

theorem maintain_go_stop (catId : String → Option Nat) (category : String)
    (gen : Nat → GenOutcome) (a : Nat) (rest : List Nat) (needed : Int)
    (db : List DBQuestion) (qs : List GenQuestion) (cid : Nat)
    (hg : gen a = GenOutcome.ret qs) (hne : qs.isEmpty = false)
    (hc : catId category = some cid)
    (hmet : needed - ((addBatch db cid qs).2 : Int) ≤ 0) :
    (maintain_go catId category gen (a :: rest) needed db).2.1 = [min 20 needed] := by
  simp only [maintain_go, hg, hne, Bool.false_eq_true, if_false, hc]
  rw [if_pos hmet]

theorem maxByFirst_four (n1 n2 n3 n4 : String) (s1 s2 s3 s4 : Nat) :
    (s2 ≤ s1 ∧ s3 ≤ s1 ∧ s4 ≤ s1 ∧
      (maxByFirst (n1, s1) [(n2, s2), (n3, s3), (n4, s4)]).1 = n1) ∨
    (s1 < s2 ∧ s3 ≤ s2 ∧ s4 ≤ s2 ∧
      (maxByFirst (n1, s1) [(n2, s2), (n3, s3), (n4, s4)]).1 = n2) ∨
    (s1 < s3 ∧ s2 < s3 ∧ s4 ≤ s3 ∧
      (maxByFirst (n1, s1) [(n2, s2), (n3, s3), (n4, s4)]).1 = n3) ∨
    (s1 < s4 ∧ s2 < s4 ∧ s3 < s4 ∧
      (maxByFirst (n1, s1) [(n2, s2), (n3, s3), (n4, s4)]).1 = n4) := by
  simp only [maxByFirst]
  by_cases h12 : s1 < s2
  · rw [if_pos h12]
    by_cases h23 : s2 < s3
    · rw [if_pos h23]
      by_cases h34 : s3 < s4
      · rw [if_pos h34]; right; right; right; exact ⟨by omega, by omega, h34, rfl⟩
      · rw [if_neg h34]; right; right; left; exact ⟨by omega, h23, by omega, rfl⟩
    · rw [if_neg h23]
      by_cases h24 : s2 < s4
      · rw [if_pos h24]; right; right; right; exact ⟨by omega, h24, by omega, rfl⟩
      · rw [if_neg h24]; right; left; exact ⟨h12, by omega, by omega, rfl⟩
  · rw [if_neg h12]
    by_cases h13 : s1 < s3
    · rw [if_pos h13]
      by_cases h34 : s3 < s4
      · rw [if_pos h34]; right; right; right; exact ⟨by omega, by omega, h34, rfl⟩
      · rw [if_neg h34]; right; right; left; exact ⟨h13, by omega, by omega, rfl⟩
    · rw [if_neg h13]
      by_cases h14 : s1 < s4
      · rw [if_pos h14]; right; right; right; exact ⟨h14, by omega, by omega, rfl⟩
      · rw [if_neg h14]; left; exact ⟨by omega, by omega, by omega, rfl⟩

theorem detect_category_none_spec (text : String) :
    detect_category none text ∈ categoryNames ∧
    (∀ name ∈ categoryNames,
      categoryScore text name ≤ categoryScore text (detect_category none text)) ∧
    (∀ name ∈ categoryNames,
      categoryScore text name = categoryScore text (detect_category none text) →
      categoryNames.indexOf (detect_category none text) ≤ categoryNames.indexOf name) ∧
    ((∀ name ∈ categoryNames, categoryScore text name = 0) →
      detect_category none text = "Legal & Judicial Terminology") := by
  set tl := text.data.map pyLowerChar with htl
  set s1 := keywordScore tl ["legal", "judicial", "court", "law"] with hs1
  set s2 := keywordScore tl ["ethics", "standards", "professional", "conduct"] with hs2
  set s3 := keywordScore tl ["grammar", "vocabulary", "language", "writing"] with hs3
  set s4 := keywordScore tl ["transcription", "format", "reporting", "record"] with hs4
  have e1 : categoryScore text "Legal & Judicial Terminology" = s1 := by
    rw [hs1, htl]; rfl
  have e2 : categoryScore text "Professional Standards & Ethics" = s2 := by
    rw [hs2, htl]; rfl
  have e3 : categoryScore text "Grammar & Vocabulary" = s3 := by
    rw [hs3, htl]; rfl
  have e4 : categoryScore text "Transcription Standards" = s4 := by
    rw [hs4, htl]; rfl
  have hcs : categoryScores text =
      [("Legal & Judicial Terminology", s1), ("Professional Standards & Ethics", s2),
       ("Grammar & Vocabulary", s3), ("Transcription Standards", s4)] := by
    rw [hs1, hs2, hs3, hs4, htl]; rfl
  have hd : detect_category none text =
      (if (("Legal & Judicial Terminology", s1) ::
            [("Professional Standards & Ethics", s2), ("Grammar & Vocabulary", s3),
             ("Transcription Standards", s4)]).any (fun p => p.2 ≠ 0) then
         (maxByFirst ("Legal & Judicial Terminology", s1)
           [("Professional Standards & Ethics", s2), ("Grammar & Vocabulary", s3),
            ("Transcription Standards", s4)]).1
       else "Legal & Judicial Terminology") := by
    simp only [detect_category, hcs]
  by_cases hz : s1 = 0 ∧ s2 = 0 ∧ s3 = 0 ∧ s4 = 0
  · have ha0 : (("Legal & Judicial Terminology", s1) ::
        [("Professional Standards & Ethics", s2), ("Grammar & Vocabulary", s3),
         ("Transcription Standards", s4)]).any (fun p => p.2 ≠ 0) = false := by
      simp [hz.1, hz.2.1, hz.2.2.1, hz.2.2.2]
    have hdd : detect_category none text = "Legal & Judicial Terminology" := by
      rw [hd, ha0]; simp
    refine ⟨?_, ?_, ?_, fun _ => hdd⟩
    · rw [hdd]; decide
    · intro name hname
      simp only [categoryNames, CATEGORIES, List.map_cons, List.map_nil, List.mem_cons,
        List.not_mem_nil, or_false] at hname
      rcases hname with rfl | rfl | rfl | rfl <;>
        rw [hdd] <;> simp only [e1, e2, e3, e4] <;> omega
    · intro name hname heq
      rw [hdd]
      simp only [categoryNames, CATEGORIES, List.map_cons, List.map_nil, List.mem_cons,
        List.not_mem_nil, or_false] at hname
      rcases hname with rfl | rfl | rfl | rfl <;> decide
  · have ha : (("Legal & Judicial Terminology", s1) ::
        [("Professional Standards & Ethics", s2), ("Grammar & Vocabulary", s3),
         ("Transcription Standards", s4)]).any (fun p => p.2 ≠ 0) = true := by
      simp only [List.any_cons, List.any_nil, Bool.or_eq_true, decide_eq_true_eq]
      omega
    have hd2 : detect_category none text =
        (maxByFirst ("Legal & Judicial Terminology", s1)
          [("Professional Standards & Ethics", s2), ("Grammar & Vocabulary", s3),
           ("Transcription Standards", s4)]).1 := by
      rw [hd, ha]; simp
    rcases maxByFirst_four "Legal & Judicial Terminology"
        "Professional Standards & Ethics" "Grammar & Vocabulary"
        "Transcription Standards" s1 s2 s3 s4 with
      ⟨h2, h3, h4, heqm⟩ | ⟨h2, h3, h4, heqm⟩ | ⟨h2, h3, h4, heqm⟩ | ⟨h2, h3, h4, heqm⟩ <;>
    · have hdd := hd2.trans heqm
      refine ⟨?_, ?_, ?_, ?_⟩
      · rw [hdd]; decide
      · intro name hname
        simp only [categoryNames, CATEGORIES, List.map_cons, List.map_nil, List.mem_cons,
          List.not_mem_nil, or_false] at hname
        rcases hname with rfl | rfl | rfl | rfl <;>
          rw [hdd] <;> simp only [e1, e2, e3, e4] <;> omega
      · intro name hname heq
        rw [hdd] at heq ⊢
        simp only [categoryNames, CATEGORIES, List.map_cons, List.map_nil, List.mem_cons,
          List.not_mem_nil, or_false] at hname
        rcases hname with rfl | rfl | rfl | rfl <;>
          simp only [e1, e2, e3, e4] at heq <;>
          first
            | decide
            | exact absurd heq (by omega)
      · intro hall
        have z1 : s1 = 0 := by rw [← e1]; exact hall _ (by decide)
        have z2 : s2 = 0 := by rw [← e2]; exact hall _ (by decide)
        have z3 : s3 = 0 := by rw [← e3]; exact hall _ (by decide)
        have z4 : s4 = 0 := by rw [← e4]; exact hall _ (by decide)
        first
          | exact hdd
          | (exfalso; omega)

theorem hasAdjPair_cons2 (bad : Char → Char → Bool) (a b : Char) (l : List Char) :
    hasAdjPair bad (a :: b :: l) = (bad a b || hasAdjPair bad (b :: l)) := rfl

theorem hasAdjPair_cons_false (bad : Char → Char → Bool) (c : Char) (l : List Char)
    (h : hasAdjPair bad (c :: l) = false) : hasAdjPair bad l = false := by
  cases l with
  | nil => rfl
  | cons b rest =>
    rw [hasAdjPair_cons2, Bool.or_eq_false_iff] at h
    exact h.2

theorem hasAdjPair_cons_head (bad : Char → Char → Bool) (c : Char) (l : List Char)
    (h : hasAdjPair bad (c :: l) = false) (x : Char) (hx : l.head? = some x) :
    bad c x = false := by
  cases l with
  | nil => simp at hx
  | cons b rest =>
    simp only [List.head?_cons, Option.some.injEq] at hx
    subst hx
    rw [hasAdjPair_cons2, Bool.or_eq_false_iff] at h
    exact h.1

theorem hasAdjPair_cons_intro (bad : Char → Char → Bool) (c : Char) (l : List Char)
    (hl : hasAdjPair bad l = false)
    (hh : ∀ x, l.head? = some x → bad c x = false) :
    hasAdjPair bad (c :: l) = false := by
  cases l with
  | nil => rfl
  | cons b rest =>
    rw [hasAdjPair_cons2, Bool.or_eq_false_iff]
    exact ⟨hh b rfl, hl⟩

theorem hasAdjPair_of_all_fst (bad : Char → Char → Bool) (p : Char → Bool)
    (l : List Char) (hall : l.all p = true)
    (hp : ∀ a b, p a = true → bad a b = false) :
    hasAdjPair bad l = false := by
  induction l with
  | nil => rfl
  | cons c rest ih =>
    simp only [List.all_cons, Bool.and_eq_true] at hall
    exact hasAdjPair_cons_intro bad c rest (ih hall.2)
      (fun x _ => hp c x hall.1)

theorem hasAdjPair_append_pieces (bad : Char → Char → Bool) (xs ys : List Char)
    (h : hasAdjPair bad (xs ++ ys) = false) :
    hasAdjPair bad xs = false ∧ hasAdjPair bad ys = false := by
  induction xs with
  | nil => exact ⟨rfl, h⟩
  | cons c rest ih =>
    have htail : hasAdjPair bad (rest ++ ys) = false := hasAdjPair_cons_false _ _ _ h
    have hr := ih htail
    refine ⟨hasAdjPair_cons_intro bad c rest hr.1 ?_, hr.2⟩
    intro x hx
    refine hasAdjPair_cons_head bad c (rest ++ ys) h x ?_
    cases rest with
    | nil => simp at hx
    | cons d ds => simp_all

theorem hasAdjPair_append_intro (bad : Char → Char → Bool) (xs ys : List Char)
    (hx : hasAdjPair bad xs = false) (hy : hasAdjPair bad ys = false)
    (hb : ∀ a, xs.getLast? = some a → ∀ b, ys.head? = some b → bad a b = false) :
    hasAdjPair bad (xs ++ ys) = false := by
  induction xs with
  | nil => simpa using hy
  | cons c rest ih =>
    have hrest : hasAdjPair bad rest = false := hasAdjPair_cons_false _ _ _ hx
    have hbr : ∀ a, rest.getLast? = some a → ∀ b, ys.head? = some b → bad a b = false := by
      intro a ha b hbq
      refine hb a ?_ b hbq
      cases rest with
      | nil => simp at ha
      | cons d ds => rw [List.getLast?_cons_cons]; exact ha
    show hasAdjPair bad (c :: (rest ++ ys)) = false
    refine hasAdjPair_cons_intro bad c (rest ++ ys) (ih hrest hbr) ?_
    intro x hxh
    cases rest with
    | nil =>
      exact hb c rfl x (by simpa using hxh)
    | cons d ds =>
      exact hasAdjPair_cons_head bad c (d :: ds) hx x (by simpa using hxh)

theorem hasAdjPair_infix (bad : Char → Char → Bool) (l₁ l₂ : List Char)
    (hinf : l₂ <:+: l₁) (h : hasAdjPair bad l₁ = false) :
    hasAdjPair bad l₂ = false := by
  obtain ⟨s, t, rfl⟩ := hinf
  have h1 := (hasAdjPair_append_pieces bad s (l₂ ++ t)
    (by simpa [List.append_assoc] using h)).2
  exact (hasAdjPair_append_pieces bad l₂ t h1).1

theorem pyStrip_isInfix (cs : List Char) : pyStrip cs <:+: cs := by
  unfold pyStrip
  have h1 : cs.dropWhile isPyWs <:+ cs := List.dropWhile_suffix isPyWs
  obtain ⟨u, hu⟩ :
      (cs.dropWhile isPyWs).reverse.dropWhile isPyWs <:+ (cs.dropWhile isPyWs).reverse :=
    List.dropWhile_suffix isPyWs
  have h3 : ((cs.dropWhile isPyWs).reverse.dropWhile isPyWs).reverse <+:
      cs.dropWhile isPyWs := by
    refine ⟨u.reverse, ?_⟩
    have := congrArg List.reverse hu
    simpa [List.reverse_append] using this
  exact h3.isInfix.trans h1.isInfix

theorem all_of_subset (p : Char → Bool) (l₁ l₂ : List Char) (hsub : l₁ ⊆ l₂)
    (h : l₂.all p = true) : l₁.all p = true := by
  simp only [List.all_eq_true] at h ⊢
  exact fun x hx => h x (hsub hx)

theorem pyStrip_all (p : Char → Bool) (cs : List Char) (h : cs.all p = true) :
    (pyStrip cs).all p = true :=
  all_of_subset p (pyStrip cs) cs (pyStrip_isInfix cs).subset h

theorem head_dropWhile_not (p : Char → Bool) :
    ∀ (cs : List Char) (c : Char) (rest : List Char),
      cs.dropWhile p = c :: rest → p c = false := by
  intro cs
  induction cs with
  | nil => intro c rest h; simp [List.dropWhile] at h
  | cons x xs ih =>
    intro c rest h
    simp only [List.dropWhile] at h
    by_cases hx : p x
    · rw [hx] at h; exact ih c rest h
    · rw [Bool.not_eq_true] at hx
      rw [hx] at h
      cases h
      exact hx

theorem all_takeWhile_self (q : Char → Bool) (l : List Char) :
    (l.takeWhile q).all q = true := by
  induction l with
  | nil => rfl
  | cons c rest ih =>
    simp only [List.takeWhile]
    by_cases hc : q c
    · rw [hc]; simp [hc, ih]
    · rw [Bool.not_eq_true] at hc; rw [hc]; rfl

theorem mem_pySplitWsGo_word :
    ∀ (fuel : Nat) (cs w : List Char), w ∈ pySplitWsGo fuel cs →
      w ≠ [] ∧ w.all (fun c => !isPyWs c) = true ∧ w ⊆ cs := by
  intro fuel
  induction fuel with
  | zero => intro cs w hw; simp [pySplitWsGo] at hw
  | succ fuel ih =>
    intro cs w hw
    simp only [pySplitWsGo] at hw
    cases hd : cs.dropWhile isPyWs with
    | nil => rw [hd] at hw; simp at hw
    | cons c rest =>
      rw [hd] at hw
      have hsub : c :: rest ⊆ cs := by
        intro x hx
        exact (List.dropWhile_suffix isPyWs).subset (hd ▸ hx)
      rcases List.mem_cons.mp hw with rfl | hm
      · refine ⟨by simp, ?_, ?_⟩
        · simp only [List.all_cons, Bool.and_eq_true]
          refine ⟨?_, all_takeWhile_self _ rest⟩
          simp [head_dropWhile_not isPyWs cs c rest hd]
        · intro x hx
          rcases List.mem_cons.mp hx with rfl | hx2
          · exact hsub (by simp)
          · exact hsub (List.mem_cons_of_mem c ((List.takeWhile_sublist _).subset hx2))
      · have := ih (rest.dropWhile (fun x => !isPyWs x)) w hm
        refine ⟨this.1, this.2.1, ?_⟩
        intro x hx
        exact hsub (List.mem_cons_of_mem c
          ((List.dropWhile_suffix _).subset (this.2.2 hx)))

theorem splitNl_ne_nil : ∀ cs : List Char, splitNl cs ≠ [] := by
  intro cs
  induction cs with
  | nil => simp [splitNl]
  | cons c rest ih =>
    simp only [splitNl]
    by_cases hc : c = '\n'
    · rw [if_pos hc]; simp
    · rw [if_neg hc]
      cases hsp : splitNl rest with
      | nil => simp
      | cons l ls => simp

theorem mem_splitNl_spec :
    ∀ (cs w : List Char), w ∈ splitNl cs →
      w.all (fun c => c ≠ '\n') = true ∧ w ⊆ cs := by
  intro cs
  induction cs with
  | nil =>
    intro w hw
    simp only [splitNl, List.mem_singleton] at hw
    subst hw
    exact ⟨rfl, by simp⟩
  | cons c rest ih =>
    intro w hw
    simp only [splitNl] at hw
    by_cases hc : c = '\n'
    · rw [if_pos hc] at hw
      rcases List.mem_cons.mp hw with rfl | hm
      · exact ⟨rfl, by simp⟩
      · have := ih w hm
        exact ⟨this.1, fun x hx => List.mem_cons_of_mem c (this.2 hx)⟩
    · rw [if_neg hc] at hw
      cases hsp : splitNl rest with
      | nil => exact absurd hsp (splitNl_ne_nil rest)
      | cons l ls =>
        rw [hsp] at hw
        rcases List.mem_cons.mp hw with rfl | hm
        · have hl := ih l (by rw [hsp]; simp)
          constructor
          · simp only [List.all_cons, Bool.and_eq_true]
            exact ⟨by simp [hc], hl.1⟩
          · intro x hx
            rcases List.mem_cons.mp hx with rfl | hx2
            · simp
            · exact List.mem_cons_of_mem c (hl.2 hx2)
        · have := ih w (by rw [hsp]; exact List.mem_cons_of_mem l hm)
          exact ⟨this.1, fun x hx => List.mem_cons_of_mem c (this.2 hx)⟩

theorem joinChar_all (p : Char → Bool) (sep : Char) (hsep : p sep = true) :
    ∀ ws : List (List Char), (∀ w ∈ ws, w.all p = true) →
      (joinChar sep ws).all p = true := by
  intro ws
  induction ws with
  | nil => intro _; rfl
  | cons l rest ih =>
    intro h
    cases rest with
    | nil => exact h l (by simp)
    | cons l2 ls =>
      show (l ++ sep :: joinChar sep (l2 :: ls)).all p = true
      rw [List.all_append]
      simp only [Bool.and_eq_true, List.all_cons]
      exact ⟨h l (by simp), hsep,
        ih (fun w hw => h w (List.mem_cons_of_mem l hw))⟩

theorem joinChar_head (sep : Char) (l : List Char) (ls : List (List Char))
    (hne : l ≠ []) : (joinChar sep (l :: ls)).head? = l.head? := by
  cases ls with
  | nil => rfl
  | cons l2 ls2 =>
    show (l ++ sep :: joinChar sep (l2 :: ls2)).head? = l.head?
    cases l with
    | nil => exact absurd rfl hne
    | cons c cs => rfl

theorem joinChar_nl_no_pair :
    ∀ ws : List (List Char),
      (∀ w ∈ ws, w ≠ [] ∧ w.all (fun c => c ≠ '\n') = true) →
      hasAdjPair (fun a b => a = '\n' && b = '\n') (joinChar '\n' ws) = false := by
  intro ws
  induction ws with
  | nil => intro _; rfl
  | cons l rest ih =>
    intro h
    have hl := h l (by simp)
    have hlNoPair : hasAdjPair (fun a b => a = '\n' && b = '\n') l = false := by
      refine hasAdjPair_of_all_fst _ (fun c => c ≠ '\n') l hl.2 ?_
      intro a b ha
      simp only [decide_eq_true_eq] at ha
      simp [ha]
    cases rest with
    | nil => exact hlNoPair
    | cons l2 ls =>
      show hasAdjPair _ (l ++ '\n' :: joinChar '\n' (l2 :: ls)) = false
      have hrest := ih (fun w hw => h w (List.mem_cons_of_mem l hw))
      have hl2 := h l2 (by simp)
      refine hasAdjPair_append_intro _ l ('\n' :: joinChar '\n' (l2 :: ls))
        hlNoPair ?_ ?_
      · refine hasAdjPair_cons_intro _ '\n' _ hrest ?_
        intro x hx
        rw [joinChar_head '\n' l2 ls hl2.1] at hx
        have hxl2 : x ∈ l2 := by
          cases l2 with
          | nil => simp at hx
          | cons c cs =>
            simp only [List.head?_cons, Option.some.injEq] at hx
            subst hx; simp
        have := (List.all_eq_true.mp hl2.2) x hxl2
        simp only [decide_eq_true_eq] at this
        simp [this]
      · intro a ha b hbq
        have hal : a ∈ l := List.mem_of_mem_getLast? ha
        have := (List.all_eq_true.mp hl.2) a hal
        simp only [decide_eq_true_eq] at this
        simp [this]

theorem collapseRunsGo_head (t : Char) (fuel : Nat) (cs : List Char) :
    (collapseRunsGo t fuel cs).head? = cs.head? := by
  match fuel, cs with
  | 0, [] => rfl
  | 0, c :: rest => rfl
  | _ + 1, [] => rfl
  | fuel + 1, c :: rest =>
    simp only [collapseRunsGo]
    split <;> rfl

theorem collapseRunsGo_all (t : Char) (p : Char → Bool) :
    ∀ (fuel : Nat) (cs : List Char), cs.all p = true →
      (collapseRunsGo t fuel cs).all p = true := by
  intro fuel
  induction fuel with
  | zero => intro cs h; cases cs <;> exact h
  | succ fuel ih =>
    intro cs h
    cases cs with
    | nil => rfl
    | cons c rest =>
      simp only [List.all_cons, Bool.and_eq_true] at h
      simp only [collapseRunsGo]
      split <;> simp only [List.all_cons, Bool.and_eq_true]
      · exact ⟨h.1, ih _ (all_of_subset p _ rest
          (List.dropWhile_suffix _).subset h.2)⟩
      · exact ⟨h.1, ih rest h.2⟩

theorem hasAdjPair_cons_dropWhileEq (bad : Char → Char → Bool) (t : Char) :
    ∀ l : List Char, hasAdjPair bad (t :: l) = false →
      hasAdjPair bad (t :: l.dropWhile (fun x => x = t)) = false := by
  intro l
  induction l with
  | nil => intro h; exact h
  | cons x xs ih =>
    intro h
    by_cases hx : x = t
    · subst hx
      have h2 : hasAdjPair bad (x :: xs) = false := hasAdjPair_cons_false _ _ _ h
      have := ih h2
      simpa [List.dropWhile] using this
    · have hd : (x :: xs).dropWhile (fun c => c = t) = x :: xs := by
        simp [List.dropWhile, hx]
      rw [hd]
      exact h

theorem collapseRunsGo_no_pair (bad : Char → Char → Bool) (t : Char) :
    ∀ (fuel : Nat) (cs : List Char), hasAdjPair bad cs = false →
      hasAdjPair bad (collapseRunsGo t fuel cs) = false := by
  intro fuel
  induction fuel with
  | zero => intro cs h; cases cs <;> exact h
  | succ fuel ih =>
    intro cs h
    cases cs with
    | nil => rfl
    | cons c rest =>
      simp only [collapseRunsGo]
      by_cases hc : c = t
      · rw [if_pos hc]
        subst hc
        have hd := hasAdjPair_cons_dropWhileEq bad c rest h
        have hdrest : hasAdjPair bad (rest.dropWhile (fun x => x = c)) = false :=
          hasAdjPair_cons_false _ _ _ hd
        refine hasAdjPair_cons_intro bad c _ (ih _ hdrest) ?_
        intro x hx
        rw [collapseRunsGo_head] at hx
        exact hasAdjPair_cons_head bad c _ hd x hx
      · rw [if_neg hc]
        have hrest : hasAdjPair bad rest = false := hasAdjPair_cons_false _ _ _ h
        refine hasAdjPair_cons_intro bad c _ (ih rest hrest) ?_
        intro x hx
        rw [collapseRunsGo_head] at hx
        exact hasAdjPair_cons_head bad c rest h x hx

theorem collapseRunsGo_no_tt (t : Char) :
    ∀ (fuel : Nat) (cs : List Char), cs.length ≤ fuel →
      hasAdjPair (fun a b => a = t && b = t) (collapseRunsGo t fuel cs) = false := by
  intro fuel
  induction fuel with
  | zero =>
    intro cs hlen
    rw [Nat.le_zero, List.length_eq_zero] at hlen
    subst hlen
    rfl
  | succ fuel ih =>
    intro cs hlen
    cases cs with
    | nil => rfl
    | cons c rest =>
      simp only [List.length_cons, Nat.succ_le_succ_iff] at hlen
      simp only [collapseRunsGo]
      by_cases hc : c = t
      · rw [if_pos hc]
        have hlen2 : (rest.dropWhile (fun x => x = t)).length ≤ fuel :=
          le_trans ((List.dropWhile_sublist _).length_le) hlen
        refine hasAdjPair_cons_intro _ c _ (ih _ hlen2) ?_
        intro x hx
        rw [collapseRunsGo_head] at hx
        cases hd : rest.dropWhile (fun y => y = t) with
        | nil => rw [hd] at hx; simp at hx
        | cons d ds =>
          rw [hd] at hx
          simp only [List.head?_cons, Option.some.injEq] at hx
          have hdnot := head_dropWhile_not (fun y => y = t) rest d ds hd
          simp only [decide_eq_false_iff_not] at hdnot
          subst hx
          simp [hdnot]
      · rw [if_neg hc]
        refine hasAdjPair_cons_intro _ c _ (ih rest hlen) ?_
        intro x _
        simp [hc]

theorem spacePunct_head (cs : List Char) : (spacePunct cs).head? = cs.head? := by
  match cs with
  | [] => rfl
  | [c] => rfl
  | c1 :: c2 :: rest =>
    simp only [spacePunct]
    split <;> rfl

theorem spacePunct_all (p : Char → Bool) (hsp : p ' ' = true) :
    ∀ cs : List Char, cs.all p = true → (spacePunct cs).all p = true := by
  intro cs
  induction cs using spacePunct.induct with
  | case1 => intro h; exact h
  | case2 c => intro h; exact h
  | case3 c1 c2 rest hcond ih =>
    intro h
    simp only [List.all_cons, Bool.and_eq_true] at h
    simp only [spacePunct]
    rw [if_pos hcond]
    simp only [List.all_cons, Bool.and_eq_true]
    exact ⟨h.1, hsp, h.2.1, ih h.2.2⟩
  | case4 c1 c2 rest hcond ih =>
    intro h
    simp only [List.all_cons, Bool.and_eq_true] at h
    simp only [spacePunct]
    rw [if_neg hcond]
    simp only [List.all_cons, Bool.and_eq_true]
    have := ih (by simp [h.2.1, h.2.2])
    exact ⟨h.1, this⟩

theorem spacePunct_preserve (bad : Char → Char → Bool)
    (hsl : ∀ x, bad x ' ' = false) (hsr : ∀ x, bad ' ' x = false) :
    ∀ cs : List Char, hasAdjPair bad cs = false →
      hasAdjPair bad (spacePunct cs) = false := by
  intro cs
  induction cs using spacePunct.induct with
  | case1 => intro h; exact h
  | case2 c => intro h; exact h
  | case3 c1 c2 rest hcond ih =>
    intro h
    have h23 : hasAdjPair bad (c2 :: rest) = false := hasAdjPair_cons_false _ _ _ h
    have hrest : hasAdjPair bad rest = false := hasAdjPair_cons_false _ _ _ h23
    simp only [spacePunct]
    rw [if_pos hcond]
    refine hasAdjPair_cons_intro bad c1 _ ?_ (fun x hx => by
      simp only [List.head?_cons, Option.some.injEq] at hx
      subst hx
      exact hsl c1)
    refine hasAdjPair_cons_intro bad ' ' _ ?_ (fun x hx => by
      simp only [List.head?_cons, Option.some.injEq] at hx
      subst hx
      exact hsr c2)
    refine hasAdjPair_cons_intro bad c2 _ (ih hrest) ?_
    intro x hx
    rw [spacePunct_head] at hx
    exact hasAdjPair_cons_head bad c2 rest h23 x hx
  | case4 c1 c2 rest hcond ih =>
    intro h
    have h23 : hasAdjPair bad (c2 :: rest) = false := hasAdjPair_cons_false _ _ _ h
    simp only [spacePunct]
    rw [if_neg hcond]
    refine hasAdjPair_cons_intro bad c1 _ (ih h23) ?_
    intro x hx
    rw [spacePunct_head] at hx
    exact hasAdjPair_cons_head bad c1 (c2 :: rest) h x hx

theorem capital_not_punct (c : Char) (h : isCapital c = true) :
    isSentencePunct c = false := by
  simp only [isSentencePunct, Bool.or_eq_false_iff, decide_eq_false_iff_not]
  refine ⟨⟨?_, ?_⟩, ?_⟩ <;> rintro rfl <;> simp [isCapital] at h

theorem spacePunct_no_pc :
    ∀ cs : List Char,
      hasAdjPair (fun a b => isSentencePunct a && isCapital b) (spacePunct cs) = false := by
  intro cs
  induction cs using spacePunct.induct with
  | case1 => rfl
  | case2 c => rfl
  | case3 c1 c2 rest hcond ih =>
    simp only [spacePunct]
    rw [if_pos hcond]
    have hc2 : isCapital c2 = true := by
      simp only [Bool.and_eq_true] at hcond
      exact hcond.2
    refine hasAdjPair_cons_intro _ c1 _ ?_ (fun x hx => by
      simp only [List.head?_cons, Option.some.injEq] at hx
      subst hx
      simp [isCapital])
    refine hasAdjPair_cons_intro _ ' ' _ ?_ (fun x hx => by
      simp [isSentencePunct])
    refine hasAdjPair_cons_intro _ c2 _ ih ?_
    intro x _
    simp [capital_not_punct c2 hc2]
  | case4 c1 c2 rest hcond ih =>
    simp only [spacePunct]
    rw [if_neg hcond]
    refine hasAdjPair_cons_intro _ c1 _ ih ?_
    intro x hx
    rw [spacePunct_head] at hx
    simp only [List.head?_cons, Option.some.injEq] at hx
    subst hx
    simpa using hcond

theorem collapseNl3Go_id_of_no_nlnl :
    ∀ (fuel : Nat) (cs : List Char),
      hasAdjPair (fun a b => a = '\n' && b = '\n') cs = false →
      collapseNl3Go fuel cs = cs := by
  intro fuel
  induction fuel with
  | zero => intro cs _; cases cs <;> rfl
  | succ fuel ih =>
    intro cs h
    cases cs with
    | nil => rfl
    | cons c rest =>
      simp only [collapseNl3Go]
      by_cases hc : c = '\n'
      · rw [if_pos hc]
        subst hc
        have hrestHead : ∀ x xs, rest = x :: xs → ¬x = '\n' := by
          intro x xs hre
          intro hxx
          subst hxx
          subst hre
          have hpair := hasAdjPair_cons_head _ '\n' ('\n' :: xs) h '\n' rfl
          simp at hpair
        have htw : rest.takeWhile (fun x => x = '\n') = [] := by
          cases rest with
          | nil => rfl
          | cons x xs => simp [List.takeWhile, hrestHead x xs rfl]
        have hdw : rest.dropWhile (fun x => x = '\n') = rest := by
          cases rest with
          | nil => rfl
          | cons x xs => simp [List.dropWhile, hrestHead x xs rfl]
        rw [htw, hdw]
        simp only [List.length_nil]
        rw [if_neg (by omega)]
        simp only [List.replicate]
        rw [ih rest (hasAdjPair_cons_false _ _ _ h)]
        rfl
      · rw [if_neg hc]
        rw [ih rest (hasAdjPair_cons_false _ _ _ h)]

theorem collapseNl3Go_all (p : Char → Bool) (hnl : p '\n' = true) :
    ∀ (fuel : Nat) (cs : List Char), cs.all p = true →
      (collapseNl3Go fuel cs).all p = true := by
  intro fuel
  induction fuel with
  | zero => intro cs h; cases cs <;> exact h
  | succ fuel ih =>
    intro cs h
    cases cs with
    | nil => rfl
    | cons c rest =>
      simp only [List.all_cons, Bool.and_eq_true] at h
      simp only [collapseNl3Go]
      by_cases hc : c = '\n'
      · rw [if_pos hc]
        rw [List.all_append]
        simp only [Bool.and_eq_true]
        constructor
        · split
          · simp [hnl]
          · simp only [List.all_eq_true]
            intro x hx
            rw [List.eq_of_mem_replicate hx]
            exact hnl
        · exact ih _ (all_of_subset p _ rest (List.dropWhile_suffix _).subset h.2)
      · rw [if_neg hc]
        simp only [List.all_cons, Bool.and_eq_true]
        exact ⟨h.1, ih rest h.2⟩

theorem all_imp (p q : Char → Bool) (l : List Char) (h : l.all p = true)
    (himp : ∀ c, p c = true → q c = true) : l.all q = true := by
  simp only [List.all_eq_true] at h ⊢
  exact fun x hx => himp x (h x hx)

theorem all_filter_self (q : Char → Bool) (l : List Char) :
    (l.filter q).all q = true := by
  simp only [List.all_eq_true, List.mem_filter]
  exact fun x h => h.2

theorem normalizeLine_words (l w : List Char) (hw : w ∈ pySplitWs l) :
    w ≠ [] ∧ w.all (fun c => !isPyWs c) = true ∧ w ⊆ l :=
  mem_pySplitWsGo_word l.length l w hw

theorem normalizeLine_no_nl (l : List Char) :
    (normalizeLine l).all (fun c => c ≠ '\n') = true := by
  unfold normalizeLine
  refine joinChar_all _ ' ' (by decide) _ ?_
  intro w hw
  refine all_imp _ _ w (normalizeLine_words l w hw).2.1 ?_
  intro c hc
  simp only [Bool.not_eq_eq_eq_not, Bool.not_true] at hc
  simp only [isPyWs, Bool.or_eq_false_iff, decide_eq_false_iff_not] at hc
  simp [hc.1.1.1.2]

/-! ## Claims -/

/-- Claim C2 counterexample.  The claim states that a candidate pair
whose answer section contains no correct-option marker produces no
`Question`.  The pair below has an answer section with no marker of any
kind (and no option set), yet `process_pdf` produces a `Question` from
it, using the whole answer section as the correct answer. -/
theorem C2_counterexample :
    process_pdf_section none
      "What is required of a court reporter during testimony?"
      "The reporter records all spoken words verbatim." "file.pdf" =
    Except.ok
      { question_text := "What is required of a court reporter during testimony?"
        correct_answer := "The reporter records all spoken words verbatim."
        wrong_answers :=
          ["Incorrect approach in Legal & Judicial Terminology",
           "This violates standard practices in Legal & Judicial Terminology",
           "This is not recommended in Legal & Judicial Terminology"]
        category := "Legal & Judicial Terminology"
        source_file := "file.pdf" } := by
  rfl

/-- Claim C2, amended: a candidate pair whose answer section yields a
complete 4-option set is always rejected with a reported
`QUESTION_CREATION_ERROR` (the source dereferences the undefined name
`correct_answer_letter` there), so in particular the first option is
never picked as the correct answer by default; a pair without a
complete option set always produces a `Question` whose correct answer
is the entire answer section. -/
theorem C2_option_pairs_always_rejected :
    (∀ (cc : Option String) (qt ans src : String),
       (extract_answer_options ans).isSome = true →
       process_pdf_section cc qt ans src =
         Except.error
           "QUESTION_CREATION_ERROR: Error creating question: name correct_answer_letter is not defined") ∧
    (∀ (cc : Option String) (qt ans src : String),
       extract_answer_options ans = none →
       ∃ q, process_pdf_section cc qt ans src = Except.ok q ∧
         q.correct_answer = ans) := by
  constructor
  · intro cc qt ans src h
    unfold process_pdf_section
    cases hx : extract_answer_options ans with
    | some o => rfl
    | none => rw [hx] at h; simp at h
  · intro cc qt ans src h
    unfold process_pdf_section
    rw [h]
    exact ⟨_, rfl, rfl⟩

/-- Witness for `C2_option_pairs_always_rejected` at concrete inputs:
an answer section carrying a full A–D option set is rejected, one
without is accepted with itself as the correct answer. -/
theorem C2_option_pairs_always_rejected_witness :
    process_pdf_section none "q" "A. one\nB. two\nC. three\nD. four" "f.pdf" =
      Except.error
        "QUESTION_CREATION_ERROR: Error creating question: name correct_answer_letter is not defined" ∧
    ∃ q, process_pdf_section none "q" "a plain answer" "f.pdf" = Except.ok q ∧
      q.correct_answer = "a plain answer" :=
  ⟨C2_option_pairs_always_rejected.1 none "q" "A. one\nB. two\nC. three\nD. four" "f.pdf" (by rfl),
   C2_option_pairs_always_rejected.2 none "q" "a plain answer" "f.pdf" (by rfl)⟩

/-- Claim C3 counterexample.  The claim states that the answer-option
extractor also accepts numbered lists (options `1.` through `4.`).
The extractor has exactly one pattern, `([A-D])\.\s*([^\n]+)`, so a
cleanly numbered 4-option input yields nothing. -/
theorem C3_counterexample :
    extract_answer_options "1. alpha\n2. beta\n3. gamma\n4. delta" = none := by
  rfl

/-- Claim C3, amended: the extractor knows a single enumeration format
— letters `A.` through `D.` with a period separator — and accepts only
a complete set of all four letters; a lettered `A.`–`D.` input yields a
complete parsed 4-option set, while any input without a single
occurrence of the characters `A`–`D` (numbered lists in particular)
yields nothing. -/
theorem C3_single_lettered_format :
    extract_answer_options "A. alpha\nB. beta\nC. gamma\nD. delta" =
      some [('A', "alpha"), ('B', "beta"), ('C', "gamma"), ('D', "delta")] ∧
    ∀ s : String, s.data.all (fun c => !isOptionLetter c) = true →
      extract_answer_options s = none :=
  ⟨by rfl, fun s h => extract_answer_options_none_of_no_letter s h⟩

/-- Witness for `C3_single_lettered_format`: the hypothesis of its
second component discharged on a concrete numbered input. -/
theorem C3_single_lettered_format_witness :
    extract_answer_options "1. alpha\n2. beta\n3. gamma\n4. delta quoted again" = none :=
  C3_single_lettered_format.2 "1. alpha\n2. beta\n3. gamma\n4. delta quoted again" (by rfl)

/-- Claim C6 counterexample.  The claim states that environment-setup
failures (directories cannot be created) abort the whole batch as an
unhandled fault.  In the source, `QuestionPoolManager()` — and with it
`_setup_directories` — is constructed inside the entry point `try`
block, so a directory failure is caught and returned as `(0, [error])`
instead of aborting. -/
theorem C6_counterexample :
    process_pdfs_entry
      { appCreateOk := true, dirSetupOk := false, ensureCategoriesOk := true,
        runOk := true, runValue := (7, []) } =
    Except.ok (0, ["Error setting up directories"]) := by
  rfl

/-- Claim C6, amended: the batch entry point always returns a pair
`(total_questions_added, errors)` and never propagates an unhandled
exception from its guarded block — directory-setup failures included,
which come back as `(0, [message])`; only faults in app construction
before the guarded block can escape. -/
theorem C6_entry_never_raises (env : BatchEnv) (h : env.appCreateOk = true) :
    ∃ r, process_pdfs_entry env = Except.ok r := by
  unfold process_pdfs_entry
  rw [h]
  cases hp : pipelineRun env with
  | ok r => exact ⟨r, by simp⟩
  | error e => exact ⟨(0, [e]), by simp⟩

/-- Witness for `C6_entry_never_raises` on a concrete environment whose
directory setup fails. -/
theorem C6_entry_never_raises_witness :
    ∃ r, process_pdfs_entry
      { appCreateOk := true, dirSetupOk := false, ensureCategoriesOk := false,
        runOk := false, runValue := (0, []) } = Except.ok r :=
  C6_entry_never_raises
    { appCreateOk := true, dirSetupOk := false, ensureCategoriesOk := false,
      runOk := false, runValue := (0, []) } (by rfl)

/-- Claim C9 (a correct claim the code violates): for every accepted
input file a backup is created before processing.  In
`QuestionProcessor.process_pdf` the comment says "Validate and backup
file" and `backup_file` carries the docstring "Create a backup of the
file before processing", but `backup_file` is never called — the trace
goes straight from validation into text extraction, for every
combination of stage outcomes. -/
theorem C9_backup_never_performed :
    ∀ validateOk textOk : Bool,
      PdfStep.backupFile ∉ process_pdf_steps validateOk textOk ∧
      (validateOk = true → PdfStep.extractText ∈ process_pdf_steps validateOk textOk) := by
  decide

/-- Claim C10 (confirmed): when the external generator is unavailable,
`generate_questions(topic, count)` returns the static fallback list
truncated to at most `count` items; of the eight taxonomy topics,
exactly `Legal & Judicial Terminology` and
`Professional Standards & Ethics` have a non-empty fallback list, every
other topic gets the empty list, and a backfill run whose every request
comes back empty persists nothing and records no error. -/
theorem C10_generator_unavailable_fallback :
    (∀ (topic : String) (count : Nat),
       generate_questions_unavailable topic count = (fallbackList topic).take count ∧
       (generate_questions_unavailable topic count).length ≤ count) ∧
    COURT_REPORTER_TOPICS.filter (fun t => !(fallbackList t).isEmpty) =
      ["Legal & Judicial Terminology", "Professional Standards & Ethics"] ∧
    (∀ count : Nat,
       generate_questions_unavailable "Grammar & Vocabulary" count = [] ∧
       generate_questions_unavailable "Transcription Standards" count = [] ∧
       generate_questions_unavailable "Court Procedures" count = [] ∧
       generate_questions_unavailable "Deposition Protocol" count = [] ∧
       generate_questions_unavailable "Reporting Equipment" count = [] ∧
       generate_questions_unavailable "Certification Requirements" count = []) ∧
    (∀ (catId : String → Option Nat) (t : Nat) (category : String)
       (db : List DBQuestion),
       (maintain_category catId t category (fun _ => GenOutcome.ret []) db).1 = db ∧
       (maintain_category catId t category (fun _ => GenOutcome.ret []) db).2.2 = []) := by
  refine ⟨?_, by rfl, ?_, ?_⟩
  · intro topic count
    refine ⟨rfl, ?_⟩
    unfold generate_questions_unavailable get_fallback_questions
    rw [List.length_take]
    exact min_le_left _ _
  · intro count
    exact ⟨gen_unavailable_empty_of_fallback_nil _ count rfl,
           gen_unavailable_empty_of_fallback_nil _ count rfl,
           gen_unavailable_empty_of_fallback_nil _ count rfl,
           gen_unavailable_empty_of_fallback_nil _ count rfl,
           gen_unavailable_empty_of_fallback_nil _ count rfl,
           gen_unavailable_empty_of_fallback_nil _ count rfl⟩
  · intro catId t category db
    simp only [maintain_category]
    cases hc : catId category with
    | some cid =>
      by_cases hlt : countCat db cid < t
      · rw [if_pos hlt, maintain_go_ret_nil]; exact ⟨rfl, rfl⟩
      · rw [if_neg hlt]; exact ⟨rfl, rfl⟩
    | none =>
      by_cases hlt : (0 : Nat) < t
      · rw [if_pos hlt, maintain_go_ret_nil]; exact ⟨rfl, rfl⟩
      · rw [if_neg hlt]; exact ⟨rfl, rfl⟩

/-- Claim C1 counterexample.  The claim asserts that the four answers
of every question accepted by the `save_questions` validation are
pairwise distinct case-insensitively.  For the pair below — produced by
`process_pdf` itself, with a validated question text — the numeric
branch of `_generate_context_aware_wrong_answers` turns the number 0
into `0 * 2 = 0`, so the third wrong answer equals the correct answer,
yet the question passes the `save_questions` validation (which checks
no distinctness). -/
theorem C1_counterexample :
    process_pdf_section none
      "What is the number of days to wait before filing a motion?"
      "Wait 0 days, then file the motion." "doc.pdf" =
    Except.ok
      { question_text := "What is the number of days to wait before filing a motion?"
        correct_answer := "Wait 0 days, then file the motion."
        wrong_answers :=
          ["Wait 5 days, then file the motion.",
           "Wait -5 days, then file the motion.",
           "Wait 0 days, then file the motion."]
        category := "Legal & Judicial Terminology"
        source_file := "doc.pdf" } ∧
    save_valid_question
      { question_text := "What is the number of days to wait before filing a motion?"
        correct_answer := "Wait 0 days, then file the motion."
        wrong_answers :=
          ["Wait 5 days, then file the motion.",
           "Wait -5 days, then file the motion.",
           "Wait 0 days, then file the motion."]
        category := "Legal & Judicial Terminology"
        source_file := "doc.pdf" } = true ∧
    validate_question_text
      "What is the number of days to wait before filing a motion?" = true ∧
    answersDistinctCI
      { question_text := "What is the number of days to wait before filing a motion?"
        correct_answer := "Wait 0 days, then file the motion."
        wrong_answers :=
          ["Wait 5 days, then file the motion.",
           "Wait -5 days, then file the motion.",
           "Wait 0 days, then file the motion."]
        category := "Legal & Judicial Terminology"
        source_file := "doc.pdf" } = false := by
  exact ⟨rfl, rfl, rfl, rfl⟩

/-- Claim C1, amended: every question produced by the `process_pdf`
section loop from a validated question text and accepted by the
`save_questions` validation has exactly 3 non-blank wrong answers and a
question text ending in a question mark; pairwise case-insensitive
distinctness of the four answers is not guaranteed (and fails for some
admitted questions). -/
theorem C1_admitted_question_shape
    (cc : Option String) (qt ans src : String) (q : Question)
    (hok : process_pdf_section cc qt ans src = Except.ok q)
    (hsave : save_valid_question q = true)
    (hvalid : validate_question_text qt = true)
    (hstrip : pyStrip qt.data = qt.data) :
    q.wrong_answers.length = 3 ∧
    q.wrong_answers.all (fun a => !(pyStrip a.data).isEmpty) = true ∧
    endsWithChar q.question_text.data '?' = true := by
  have hq : q = { question_text := qt
                  correct_answer := ans
                  wrong_answers := generate_context_aware_wrong_answers ans
                    (detect_category cc qt)
                  category := detect_category cc qt
                  source_file := src } := by
    unfold process_pdf_section at hok
    cases hx : extract_answer_options ans with
    | some o => rw [hx] at hok; exact absurd hok (by simp)
    | none =>
      rw [hx] at hok
      simp only [Except.ok.injEq] at hok
      exact hok.symm
  have hnonblank : q.wrong_answers.all (fun a => !(pyStrip a.data).isEmpty) = true := by
    unfold save_valid_question at hsave
    simp only [Bool.and_eq_true] at hsave
    exact hsave.1.1.2
  have hends : endsWithChar (pyStrip qt.data) '?' = true := by
    by_contra hw
    rw [Bool.not_eq_true] at hw
    simp only [validate_question_text] at hvalid
    rw [hw] at hvalid
    simp at hvalid
  refine ⟨?_, hnonblank, ?_⟩
  · rw [hq]
    exact generate_wrong_answers_length ans (detect_category cc qt)
  · rw [hq]
    show endsWithChar qt.data '?' = true
    rw [← hstrip]
    exact hends

/-- Witness for `C1_admitted_question_shape` on a concrete admitted
question, every hypothesis discharged by evaluation. -/
theorem C1_admitted_question_shape_witness :
    ({ question_text := "What is the role of the court during a trial?"
       correct_answer := "The court presides over the proceedings."
       wrong_answers :=
         ["Incorrect approach in Legal & Judicial Terminology",
          "This violates standard practices in Legal & Judicial Terminology",
          "This is not recommended in Legal & Judicial Terminology"]
       category := "Legal & Judicial Terminology"
       source_file := "w.pdf" } : Question).wrong_answers.length = 3 ∧
    ({ question_text := "What is the role of the court during a trial?"
       correct_answer := "The court presides over the proceedings."
       wrong_answers :=
         ["Incorrect approach in Legal & Judicial Terminology",
          "This violates standard practices in Legal & Judicial Terminology",
          "This is not recommended in Legal & Judicial Terminology"]
       category := "Legal & Judicial Terminology"
       source_file := "w.pdf" } : Question).wrong_answers.all
        (fun a => !(pyStrip a.data).isEmpty) = true ∧
    endsWithChar
      ({ question_text := "What is the role of the court during a trial?"
         correct_answer := "The court presides over the proceedings."
         wrong_answers :=
           ["Incorrect approach in Legal & Judicial Terminology",
            "This violates standard practices in Legal & Judicial Terminology",
            "This is not recommended in Legal & Judicial Terminology"]
         category := "Legal & Judicial Terminology"
         source_file := "w.pdf" } : Question).question_text.data '?' = true :=
  C1_admitted_question_shape none
    "What is the role of the court during a trial?"
    "The court presides over the proceedings." "w.pdf" _
    (by rfl) (by rfl) (by rfl) (by rfl)

/-- Claim C4 counterexample.  The claim states that the pool manager
checks `content_hash` uniqueness before every insert, so a question
whose content hash equals that of an already-persisted question is
never inserted again.  The insert step checks only
`(question_text, category_id)`; the two questions below have equal
content (hence equal `content_hash`, which does not cover the
category), differ only in category, and the second IS inserted on top
of the first. -/
theorem C4_counterexample :
    contentString
      { question_text := "What is a deposition in a civil case?"
        correct_answer := "A sworn out-of-court testimony."
        wrong_answers := ["A court filing.", "A jury instruction.", "A verdict form."]
        category := "Legal & Judicial Terminology"
        source_file := "d.pdf" } =
    contentString
      { question_text := "What is a deposition in a civil case?"
        correct_answer := "A sworn out-of-court testimony."
        wrong_answers := ["A court filing.", "A jury instruction.", "A verdict form."]
        category := "Professional Standards & Ethics"
        source_file := "d.pdf" } ∧
    (insert_question
      (fun n => if n = "Legal & Judicial Terminology" then some 1
                else if n = "Professional Standards & Ethics" then some 2 else none)
      (insert_question
        (fun n => if n = "Legal & Judicial Terminology" then some 1
                  else if n = "Professional Standards & Ethics" then some 2 else none)
        []
        { question_text := "What is a deposition in a civil case?"
          correct_answer := "A sworn out-of-court testimony."
          wrong_answers := ["A court filing.", "A jury instruction.", "A verdict form."]
          category := "Legal & Judicial Terminology"
          source_file := "d.pdf" })
      { question_text := "What is a deposition in a civil case?"
        correct_answer := "A sworn out-of-court testimony."
        wrong_answers := ["A court filing.", "A jury instruction.", "A verdict form."]
        category := "Professional Standards & Ethics"
        source_file := "d.pdf" }).length = 2 := by
  exact ⟨rfl, rfl⟩

/-- Claim C4, amended: before every insert the pool manager checks only
`(question_text, category)` uniqueness against the already-persisted
questions (`content_hash` is computed on extracted questions but never
consulted); a question whose text and category match a persisted row is
not inserted again, so re-inserting the question list extracted from
the same document a second time leaves the persisted store unchanged.
Equal content hash alone does not prevent insertion when the category
differs. -/
theorem C4_dedup_by_text_and_category :
    (∀ (catId : String → Option Nat) (db : List DBQuestion) (qs : List Question),
       insert_questions catId (insert_questions catId db qs) qs =
         insert_questions catId db qs) ∧
    (∀ (catId : String → Option Nat) (db : List DBQuestion) (q : Question) (cid : Nat),
       catId q.category = some cid →
       dbHasQuestion db q.question_text cid = true →
       insert_question catId db q = db) := by
  constructor
  · intro catId db qs
    exact inserts_of_all_covered catId qs _
      (fun q hq cid hc => inserts_cover catId qs db q hq cid hc)
  · intro catId db q cid hc hh
    refine insert_question_of_covered catId db q ?_
    intro c hcc
    rw [hc] at hcc
    cases hcc
    exact hh

/-- Witness for `C4_dedup_by_text_and_category`: its duplicate-skip
component applied at a concrete persisted row. -/
theorem C4_dedup_by_text_and_category_witness :
    insert_question (fun _ => some 5)
      [{ category_id := 5, question_text := "What is hearsay in court testimony?",
         correct_answer := "x", wrong_answers := [] }]
      { question_text := "What is hearsay in court testimony?"
        correct_answer := "y"
        wrong_answers := ["a", "b", "c"]
        category := "Legal & Judicial Terminology"
        source_file := "h.pdf" } =
    [{ category_id := 5, question_text := "What is hearsay in court testimony?",
       correct_answer := "x", wrong_answers := [] }] :=
  C4_dedup_by_text_and_category.2 (fun _ => some 5)
    [{ category_id := 5, question_text := "What is hearsay in court testimony?",
       correct_answer := "x", wrong_answers := [] }]
    { question_text := "What is hearsay in court testimony?"
      correct_answer := "y"
      wrong_answers := ["a", "b", "c"]
      category := "Legal & Judicial Terminology"
      source_file := "h.pdf" } 5 (by rfl) (by rfl)

/-- Claim C5 counterexample.  The claim states that backfill never
requests more than `threshold − count` questions in total for a
category.  With a category at count 48 and threshold 50, a generator
whose responses are all duplicates of an already-persisted question
makes the loop request `min(20, 2) = 2` questions on each of its three
attempts — 6 requested in total, exceeding `threshold − count = 2`. -/
theorem C5_counterexample :
    (maintain_category (fun _ => some 1) 50 "Legal & Judicial Terminology"
       (fun _ => GenOutcome.ret
         [{ question_text := "q0", correct_answer := "a", wrong_answers := [] }])
       ((List.range 48).map (fun i =>
         { category_id := 1, question_text := "q" ++ toString i,
           correct_answer := "a", wrong_answers := [] }))).2.1 = [2, 2, 2] ∧
    ((maintain_category (fun _ => some 1) 50 "Legal & Judicial Terminology"
       (fun _ => GenOutcome.ret
         [{ question_text := "q0", correct_answer := "a", wrong_answers := [] }])
       ((List.range 48).map (fun i =>
         { category_id := 1, question_text := "q" ++ toString i,
           correct_answer := "a", wrong_answers := [] }))).2.1).sum = 6 := by
  exact ⟨rfl, rfl⟩

/-- Claim C5, amended: for a category below the threshold the manager
makes at most 3 generation attempts (the `retries = 3` loop), each
request asking for `min(20, needed_count)` questions with
`needed_count` recomputed from what was actually persisted — so the
first request for a category at count `c < t` asks for exactly
`min(20, t − c)` (2 at 48/50), every request stays within
`[1, min(20, t − c)]`, a category at or above the threshold triggers no
request at all, and a first response that fills the gap stops the loop
after a single request.  Across retries the total requested may exceed
`t − c` when a response persists nothing. -/
theorem C5_backfill_requests :
    (∀ (catId : String → Option Nat) (t : Nat) (category : String)
       (gen : Nat → GenOutcome) (db : List DBQuestion),
       (maintain_category catId t category gen db).2.1.length ≤ 3) ∧
    (∀ (catId : String → Option Nat) (t : Nat) (category : String)
       (gen : Nat → GenOutcome) (db : List DBQuestion) (cid : Nat),
       catId category = some cid → t ≤ countCat db cid →
       (maintain_category catId t category gen db).2.1 = []) ∧
    (∀ (catId : String → Option Nat) (t : Nat) (category : String)
       (gen : Nat → GenOutcome) (db : List DBQuestion) (cid : Nat),
       catId category = some cid → countCat db cid < t →
       (maintain_category catId t category gen db).2.1.head? =
         some (min 20 ((t : Int) - (countCat db cid : Int)))) ∧
    (∀ (catId : String → Option Nat) (t : Nat) (category : String)
       (gen : Nat → GenOutcome) (db : List DBQuestion) (cid : Nat),
       catId category = some cid → countCat db cid < t →
       ∀ r ∈ (maintain_category catId t category gen db).2.1,
         1 ≤ r ∧ r ≤ min 20 ((t : Int) - (countCat db cid : Int))) ∧
    (∀ (catId : String → Option Nat) (t : Nat) (category : String)
       (gen : Nat → GenOutcome) (db : List DBQuestion) (cid : Nat)
       (qs : List GenQuestion),
       catId category = some cid → countCat db cid < t →
       gen 0 = GenOutcome.ret qs → qs.isEmpty = false →
       (t : Int) - (countCat db cid : Int) - ((addBatch db cid qs).2 : Int) ≤ 0 →
       (maintain_category catId t category gen db).2.1 =
         [min 20 ((t : Int) - (countCat db cid : Int))]) := by
  refine ⟨?_, ?_, ?_, ?_, ?_⟩
  · intro catId t category gen db
    simp only [maintain_category]
    split
    · exact maintain_go_len catId category gen [0, 1, 2] _ db
    · simp
  · intro catId t category gen db cid hc hle
    simp only [maintain_category, hc]
    rw [if_neg (by omega)]
  · intro catId t category gen db cid hc hlt
    simp only [maintain_category, hc]
    rw [if_pos hlt]
    exact maintain_go_first catId category gen 0 [1, 2] _ db
  · intro catId t category gen db cid hc hlt r hr
    simp only [maintain_category, hc] at hr
    rw [if_pos hlt] at hr
    exact maintain_go_req_bounds catId category gen [0, 1, 2] _ db (by omega) r hr
  · intro catId t category gen db cid qs hc hlt hg hne hmet
    simp only [maintain_category, hc]
    rw [if_pos hlt]
    exact maintain_go_stop catId category gen 0 [1, 2] _ db qs cid hg hne hc hmet

/-- Witness for `C5_backfill_requests`: the first-request component on
a concrete empty pool — the first request of a category at count 0 and
threshold 50 asks for exactly `min(20, 50)` questions. -/
theorem C5_backfill_requests_witness :
    (maintain_category (fun _ => some 1) 50 "Court Procedures"
       (fun _ => GenOutcome.raise) []).2.1.head? =
      some (min 20 ((50 : Int) - (countCat [] 1 : Int))) :=
  C5_backfill_requests.2.2.1 (fun _ => some 1) 50 "Court Procedures"
    (fun _ => GenOutcome.raise) [] 1 (by rfl) (by decide)

/-- Claim C7 counterexample.  The claim states that any tie in the
highest keyword count resolves to the fixed default category.  The text
below scores 1 for `Grammar & Vocabulary` (keyword `grammar`) and 1 for
`Transcription Standards` (keyword `format`), a tie at the highest
count, yet the classifier returns `Grammar & Vocabulary` — the earliest
tied entry — not the default `Legal & Judicial Terminology`. -/
theorem C7_counterexample :
    detect_category none "grammar format" = "Grammar & Vocabulary" ∧
    categoryScore "grammar format" "Grammar & Vocabulary" = 1 ∧
    categoryScore "grammar format" "Transcription Standards" = 1 ∧
    categoryScore "grammar format" "Legal & Judicial Terminology" = 0 ∧
    categoryScore "grammar format" "Professional Standards & Ethics" = 0 ∧
    detect_category none "grammar format" ≠ "Legal & Judicial Terminology" := by
  exact ⟨rfl, rfl, rfl, rfl, rfl, by decide⟩

/-- Claim C7, amended: the classifier is a pure function of the
question text and the sticky category context — a set
`current_category` is returned unchanged; otherwise each category is
scored by the number of its keywords occurring case-insensitively in
the text, and the classifier returns a taxonomy category of maximal
score, ties resolving to the earliest tied category in the fixed
`CATEGORIES` order (so only an all-zero score falls back to the default
`Legal & Judicial Terminology`, which is also the first entry). -/
theorem C7_classifier_first_max :
    (∀ (c : String) (text : String), detect_category (some c) text = c) ∧
    (∀ text : String, detect_category none text ∈ categoryNames) ∧
    (∀ text : String, ∀ name ∈ categoryNames,
       categoryScore text name ≤ categoryScore text (detect_category none text)) ∧
    (∀ text : String, ∀ name ∈ categoryNames,
       categoryScore text name = categoryScore text (detect_category none text) →
       categoryNames.indexOf (detect_category none text) ≤
         categoryNames.indexOf name) ∧
    (∀ text : String, (∀ name ∈ categoryNames, categoryScore text name = 0) →
       detect_category none text = "Legal & Judicial Terminology") :=
  ⟨fun _ _ => rfl,
   fun text => (detect_category_none_spec text).1,
   fun text => (detect_category_none_spec text).2.1,
   fun text => (detect_category_none_spec text).2.2.1,
   fun text => (detect_category_none_spec text).2.2.2⟩

/-- Witness for `C7_classifier_first_max`: its maximality component at
a concrete text and category name. -/
theorem C7_classifier_first_max_witness :
    categoryScore "the court of law" "Grammar & Vocabulary" ≤
      categoryScore "the court of law" (detect_category none "the court of law") :=
  C7_classifier_first_max.2.2.1 "the court of law" "Grammar & Vocabulary" (by decide)

/-- Claim C8 counterexample.  The claim states that `_clean_text`
collapses 3 or more consecutive blank lines to a single blank line and
normalizes runs of consecutive punctuation.  In fact blank lines are
dropped entirely during line normalization (the `\n{3,}` substitution
is dead code), so three blank lines become none rather than one; and
only `?` and `.` runs are collapsed, so `!!!` survives untouched. -/
theorem C8_counterexample :
    clean_text "a\n\n\n\nb" = "a\nb" ∧
    clean_text "a\n\n\n\nb" ≠ "a\n\nb" ∧
    clean_text "Stop!!! Go" = "Stop!!! Go" := by
  exact ⟨rfl, by decide, rfl⟩

/-- Claim C8, amended: for every input, the cleaned text contains only
printable characters and newlines (non-printables removed, tabs turned
into spaces), has no two adjacent newlines — blank lines are dropped
entirely, not collapsed to one — no two adjacent `?`, no two adjacent
`.` (runs of `?` and of `.` are collapsed; other punctuation runs are
untouched), and no sentence-ending punctuation immediately followed by
a capital letter (a space is inserted between them). -/
theorem C8_clean_text_normalization :
    ∀ s : String,
      (clean_text s).data.all (fun c => pyIsPrintable c || c = '\n') = true ∧
      hasAdjPair (fun a b => a = '\n' && b = '\n') (clean_text s).data = false ∧
      hasAdjPair (fun a b => a = '?' && b = '?') (clean_text s).data = false ∧
      hasAdjPair (fun a b => a = '.' && b = '.') (clean_text s).data = false ∧
      hasAdjPair (fun a b => isSentencePunct a && isCapital b)
        (clean_text s).data = false := by
  intro s
  have hclean : (clean_text s).data =
      pyStrip (collapseNl3 (spacePunct (collapseRuns '.' (collapseRuns '?'
        (joinChar '\n'
          (((splitNl ((s.data.filter
              (fun c => pyIsPrintable c || c = '\n' || c = '\t')).map
              (fun c => if c = '\t' then ' ' else c))).map normalizeLine).filter
            (fun l => l ≠ []))))))) := rfl
  rw [hclean]
  set kept := s.data.filter (fun c => pyIsPrintable c || c = '\n' || c = '\t')
    with hkept
  set noTab := kept.map (fun c => if c = '\t' then ' ' else c) with hnoTab
  set pieces := ((splitNl noTab).map normalizeLine).filter (fun l => l ≠ [])
    with hpiecesDef
  set joined := joinChar '\n' pieces with hjoinedDef
  have hkeptAll : kept.all (fun c => pyIsPrintable c || c = '\n' || c = '\t') = true :=
    all_filter_self _ _
  have hnoTabAll : noTab.all (fun c => pyIsPrintable c || c = '\n') = true := by
    rw [hnoTab, List.all_map]
    refine all_imp _ _ kept hkeptAll ?_
    intro c hc
    simp only [Function.comp]
    by_cases ht : c = '\t'
    · subst ht; decide
    · simp only [if_neg ht]
      simp only [Bool.or_eq_true] at hc ⊢
      rcases hc with (hp | hn) | htb
      · exact Or.inl hp
      · exact Or.inr hn
      · simp only [decide_eq_true_eq] at htb
        exact absurd htb ht
  have PIECE : ∀ w ∈ pieces, w ≠ [] ∧ w.all (fun c => c ≠ '\n') = true := by
    intro w hw
    rw [hpiecesDef] at hw
    have hw2 := List.mem_filter.mp hw
    obtain ⟨l, hl, rfl⟩ := List.mem_map.mp hw2.1
    refine ⟨by simpa using hw2.2, normalizeLine_no_nl l⟩
  have PALL : ∀ w ∈ pieces,
      w.all (fun c => pyIsPrintable c || c = '\n') = true := by
    intro w hw
    rw [hpiecesDef] at hw
    have hw2 := List.mem_filter.mp hw
    obtain ⟨l, hl, rfl⟩ := List.mem_map.mp hw2.1
    have hlall : l.all (fun c => pyIsPrintable c || c = '\n') = true :=
      all_of_subset _ l noTab (mem_splitNl_spec noTab l hl).2 hnoTabAll
    unfold normalizeLine
    refine joinChar_all _ ' ' (by decide) _ ?_
    intro w2 hw2m
    exact all_of_subset _ w2 l (normalizeLine_words l w2 hw2m).2.2 hlall
  have J1 : joined.all (fun c => pyIsPrintable c || c = '\n') = true :=
    joinChar_all _ '\n' (by decide) pieces PALL
  have J2 : hasAdjPair (fun a b => a = '\n' && b = '\n') joined = false :=
    joinChar_nl_no_pair pieces PIECE
  set q1 := collapseRuns '?' joined with hq1
  set q2 := collapseRuns '.' q1 with hq2
  set sp := spacePunct q2 with hspDef
  have A1 : q1.all (fun c => pyIsPrintable c || c = '\n') = true := by
    rw [hq1]; unfold collapseRuns
    exact collapseRunsGo_all '?' _ _ joined J1
  have N1 : hasAdjPair (fun a b => a = '\n' && b = '\n') q1 = false := by
    rw [hq1]; unfold collapseRuns
    exact collapseRunsGo_no_pair _ '?' _ joined J2
  have Q1 : hasAdjPair (fun a b => a = '?' && b = '?') q1 = false := by
    rw [hq1]; unfold collapseRuns
    exact collapseRunsGo_no_tt '?' joined.length joined (le_refl _)
  have A2 : q2.all (fun c => pyIsPrintable c || c = '\n') = true := by
    rw [hq2]; unfold collapseRuns
    exact collapseRunsGo_all '.' _ _ q1 A1
  have N2 : hasAdjPair (fun a b => a = '\n' && b = '\n') q2 = false := by
    rw [hq2]; unfold collapseRuns
    exact collapseRunsGo_no_pair _ '.' _ q1 N1
  have Q2 : hasAdjPair (fun a b => a = '?' && b = '?') q2 = false := by
    rw [hq2]; unfold collapseRuns
    exact collapseRunsGo_no_pair _ '.' _ q1 Q1
  have D2 : hasAdjPair (fun a b => a = '.' && b = '.') q2 = false := by
    rw [hq2]; unfold collapseRuns
    exact collapseRunsGo_no_tt '.' q1.length q1 (le_refl _)
  have A3 : sp.all (fun c => pyIsPrintable c || c = '\n') = true := by
    rw [hspDef]
    exact spacePunct_all _ (by decide) q2 A2
  have N3 : hasAdjPair (fun a b => a = '\n' && b = '\n') sp = false := by
    rw [hspDef]
    exact spacePunct_preserve _ (fun x => by simp) (fun x => by simp) q2 N2
  have Q3 : hasAdjPair (fun a b => a = '?' && b = '?') sp = false := by
    rw [hspDef]
    exact spacePunct_preserve _ (fun x => by simp) (fun x => by simp) q2 Q2
  have D3 : hasAdjPair (fun a b => a = '.' && b = '.') sp = false := by
    rw [hspDef]
    exact spacePunct_preserve _ (fun x => by simp) (fun x => by simp) q2 D2
  have PC3 : hasAdjPair (fun a b => isSentencePunct a && isCapital b) sp = false := by
    rw [hspDef]
    exact spacePunct_no_pc q2
  have HID : collapseNl3 sp = sp := by
    unfold collapseNl3
    exact collapseNl3Go_id_of_no_nlnl sp.length sp N3
  rw [HID]
  exact ⟨pyStrip_all _ sp A3,
    hasAdjPair_infix _ sp _ (pyStrip_isInfix sp) N3,
    hasAdjPair_infix _ sp _ (pyStrip_isInfix sp) Q3,
    hasAdjPair_infix _ sp _ (pyStrip_isInfix sp) D3,
    hasAdjPair_infix _ sp _ (pyStrip_isInfix sp) PC3⟩

end CourtPrep
